import Mathlib

/-!
Verification development for the gesture-control desktop controller
(desktop_control.py).  The per-frame state machine of
GestureDesktopController is embedded as pure Lean functions over ℚ;
the arccos-based angle utility is embedded over ℝ.  Machine floats are
modelled by exact rationals: every comparison the source performs is
between values that the embedding reproduces exactly, except that the
two euclidean-norm comparisons (pinch distance, cursor velocity) are
represented by an input field respectively by the equivalent comparison
of squares, as noted at the definitions.
-/

namespace GestureControl

/-- Raw gesture labels submitted to the confirmation filter, the closed
set of label strings used in desktop_control.py. -/
inductive Gesture
  | idle
  | point
  | pinch
  | peace
  | fist
  | scroll
deriving DecidableEq

/-- Per-frame finger extension flags, the output of
GestureDesktopController._get_fingers. -/
structure Fingers where
  thumb : Bool
  index : Bool
  middle : Bool
  ring : Bool
  pinky : Bool
deriving DecidableEq

/-- OS input actions emitted through pyautogui. -/
inductive Action
  | moveTo (x y : ℤ)
  | mouseDown
  | mouseUp
  | click
  | doubleClick
  | rightClick
  | scroll (amount : ℤ)
deriving DecidableEq

/-- Tunable parameters of the Config class, together with the screen
size SCREEN_W, SCREEN_H obtained from pyautogui.size() at startup. -/
structure Config where
  SCREEN_W : ℚ
  SCREEN_H : ℚ
  SMOOTH_BASE : ℚ
  SMOOTH_FAST : ℚ
  VELOCITY_THRESHOLD : ℚ
  DEAD_ZONE : ℚ
  MARGIN : ℚ
  PINCH_CLOSE : ℚ
  PINCH_OPEN : ℚ
  CLICK_COOLDOWN : ℚ
  DOUBLE_CLICK_WINDOW : ℚ
  SCROLL_SENSITIVITY : ℚ
  CONFIRM_FRAMES : ℕ
  FIST_CONFIRM : ℕ

/-- The source values of the Config class (lines 42-69), for a screen of
w by h pixels: SMOOTH_BASE 0.25, SMOOTH_FAST 0.55, VELOCITY_THRESHOLD 40,
DEAD_ZONE 3, MARGIN 0.10, PINCH_CLOSE 0.045, PINCH_OPEN 0.065,
CLICK_COOLDOWN 0.35, DOUBLE_CLICK_WINDOW 0.35, SCROLL_SENSITIVITY 50,
CONFIRM_FRAMES 2, FIST_CONFIRM 3. -/
def srcConfig (w h : ℚ) : Config :=
  { SCREEN_W := w
    SCREEN_H := h
    SMOOTH_BASE := 1/4
    SMOOTH_FAST := 11/20
    VELOCITY_THRESHOLD := 40
    DEAD_ZONE := 3
    MARGIN := 1/10
    PINCH_CLOSE := 9/200
    PINCH_OPEN := 13/200
    CLICK_COOLDOWN := 7/20
    DOUBLE_CLICK_WINDOW := 7/20
    SCROLL_SENSITIVITY := 50
    CONFIRM_FRAMES := 2
    FIST_CONFIRM := 3 }

/-- Mutable controller state, the fields of GestureDesktopController that
the per-frame processing and the hand-lost handler read or write
(the unused click_count, last_hand_time and hand_lost_frames fields and
the display-only paused flag, owned by the main loop, are omitted). -/
structure CState where
  smooth_x : ℚ
  smooth_y : ℚ
  prev_target_x : ℚ
  prev_target_y : ℚ
  is_pinching : Bool
  pinch_start_time : ℚ
  last_click_time : ℚ
  last_right_click_time : ℚ
  last_single_click_time : ℚ
  is_scrolling : Bool
  scroll_origin_y : ℚ
  last_scroll_y : ℚ
  scroll_frames : ℕ
  is_dragging : Bool
  gesture_history : List Gesture
  current_confirmed_gesture : Gesture
  gesture_frame_count : ℕ
  gesture_text : String
  total_clicks : ℕ
  total_scrolls : ℕ
deriving DecidableEq

/-- The state built by GestureDesktopController.__init__: cursor at the
screen center, all flags cleared, empty history, confirmed label idle. -/
def initState (cfg : Config) : CState :=
  { smooth_x := cfg.SCREEN_W / 2
    smooth_y := cfg.SCREEN_H / 2
    prev_target_x := cfg.SCREEN_W / 2
    prev_target_y := cfg.SCREEN_H / 2
    is_pinching := false
    pinch_start_time := 0
    last_click_time := 0
    last_right_click_time := 0
    last_single_click_time := 0
    is_scrolling := false
    scroll_origin_y := 0
    last_scroll_y := 0
    scroll_frames := 0
    is_dragging := false
    gesture_history := []
    current_confirmed_gesture := Gesture.idle
    gesture_frame_count := 0
    gesture_text := "Idle"
    total_clicks := 0
    total_scrolls := 0 }

/-- Data the per-frame processing reads from one landmark frame:
the finger flags, the thumb-tip to index-tip euclidean distance computed
at line 230 (the state machine only ever compares this distance with the
two hysteresis thresholds, so it is carried as an exact input value),
the index-tip normalized coordinates lm[8].x and lm[8].y, the y
coordinates of landmarks 0, 5, 9, 13, 17 used for the palm average, and
the frame timestamp time.time(). -/
structure Frame where
  fingers : Fingers
  pinchDist : ℚ
  indexX : ℚ
  indexY : ℚ
  y0 : ℚ
  y5 : ℚ
  y9 : ℚ
  y13 : ℚ
  y17 : ℚ
  now : ℚ
deriving DecidableEq

/-- Python int() truncates toward zero. -/
def pyInt (q : ℚ) : ℤ := if 0 ≤ q then ⌊q⌋ else ⌈q⌉

/-- Append to a collections.deque with the given maxlen: the oldest
entries are evicted so that at most maxlen remain. -/
def dequeAppend (cap : ℕ) (l : List Gesture) (g : Gesture) : List Gesture :=
  (l ++ [g]).drop (l.length + 1 - cap)

/-- Number of extended non-thumb fingers (line 223). -/
def extendedCount (fg : Fingers) : ℕ :=
  (if fg.index then 1 else 0) + (if fg.middle then 1 else 0) +
    (if fg.ring then 1 else 0) + (if fg.pinky then 1 else 0)

/-- Predicate all_curled of line 225. -/
def allCurled (fg : Fingers) : Prop :=
  extendedCount fg = 0 ∧ fg.thumb = false

/-- Predicate open_palm of line 226. -/
def openPalm (fg : Fingers) : Prop :=
  4 ≤ extendedCount fg ∧ fg.thumb = true

/-- Predicate pointing of line 227. -/
def pointing (fg : Fingers) : Prop :=
  fg.index = true ∧ fg.middle = false ∧ fg.ring = false ∧ fg.pinky = false

/-- Predicate peace of line 228. -/
def peace (fg : Fingers) : Prop :=
  fg.index = true ∧ fg.middle = true ∧ fg.ring = false ∧ fg.pinky = false

instance (fg : Fingers) : Decidable (allCurled fg) := by
  unfold allCurled; exact inferInstance

instance (fg : Fingers) : Decidable (openPalm fg) := by
  unfold openPalm; exact inferInstance

instance (fg : Fingers) : Decidable (pointing fg) := by
  unfold pointing; exact inferInstance

instance (fg : Fingers) : Decidable (peace fg) := by
  unfold peace; exact inferInstance

/-- Average y of landmarks 0, 5, 9, 13, 17 (line 291). -/
def palmAvgY (f : Frame) : ℚ :=
  (f.y0 + f.y5 + f.y9 + f.y13 + f.y17) / 5

/-- The gesture confirmation filter _confirm_gesture (lines 196-212):
append the candidate to the bounded history; a label equal to the
currently confirmed one is confirmed immediately; otherwise the switch is
confirmed exactly when the most recent needed entries (3 for fist, 2
otherwise) are all equal to the candidate. -/
def confirmGesture (cfg : Config) (s : CState) (g : Gesture) : CState × Bool :=
  let hist := dequeAppend 8 s.gesture_history g
  if g = s.current_confirmed_gesture then
    ({ s with
        gesture_history := hist
        gesture_frame_count := s.gesture_frame_count + 1 }, true)
  else
    let needed := if g = Gesture.fist then cfg.FIST_CONFIRM else cfg.CONFIRM_FRAMES
    let recent := hist.drop (hist.length - needed)
    if needed ≤ recent.length ∧ recent.all (fun x => decide (x = g)) then
      ({ s with
          gesture_history := hist
          current_confirmed_gesture := g
          gesture_frame_count := needed }, true)
    else
      ({ s with gesture_history := hist }, false)

/-- Cursor mapping _map_to_screen (lines 157-163): strip the margin,
mirror the horizontal axis, scale to the screen, clamp to screen bounds. -/
def mapToScreen (cfg : Config) (x y : ℚ) : ℚ × ℚ :=
  let m := cfg.MARGIN
  let mx := (x - m) / (1 - 2 * m)
  let my := (y - m) / (1 - 2 * m)
  let sx := (1 - mx) * cfg.SCREEN_W
  let sy := my * cfg.SCREEN_H
  (max 0 (min (cfg.SCREEN_W - 1) sx), max 0 (min (cfg.SCREEN_H - 1) sy))

/-- Adaptive smoothing factor of _smooth_move (lines 168-176).  The
source compares sqrt(vx^2 + vy^2) with VELOCITY_THRESHOLD; since both
sides are nonnegative this is equivalent to the comparison of squares
used here, which stays inside ℚ. -/
def smoothAlpha (cfg : Config) (s : CState) (tx ty : ℚ) : ℚ :=
  if cfg.VELOCITY_THRESHOLD ^ 2 <
      (tx - s.prev_target_x) ^ 2 + (ty - s.prev_target_y) ^ 2 then
    cfg.SMOOTH_FAST
  else
    cfg.SMOOTH_BASE

/-- Dead-zone test of _smooth_move (lines 186-188): both axis deltas of
the blended update fall strictly below DEAD_ZONE. -/
def deadzone (cfg : Config) (s : CState) (tx ty : ℚ) : Prop :=
  |s.smooth_x + (tx - s.smooth_x) * smoothAlpha cfg s tx ty - s.smooth_x| < cfg.DEAD_ZONE ∧
  |s.smooth_y + (ty - s.smooth_y) * smoothAlpha cfg s tx ty - s.smooth_y| < cfg.DEAD_ZONE

instance (cfg : Config) (s : CState) (tx ty : ℚ) : Decidable (deadzone cfg s tx ty) := by
  unfold deadzone; exact inferInstance

/-- The smoother _smooth_move (lines 165-193): adaptive EMA with the
dead-zone suppression; returns the updated state and the integer cursor
position passed to pyautogui.moveTo. -/
def smoothMove (cfg : Config) (s0 : CState) (tx ty : ℚ) : CState × ℤ × ℤ :=
  let alpha := smoothAlpha cfg s0 tx ty
  let s := { s0 with prev_target_x := tx, prev_target_y := ty }
  if deadzone cfg s0 tx ty then
    (s, pyInt s.smooth_x, pyInt s.smooth_y)
  else
    let s2 := { s with
        smooth_x := s0.smooth_x + (tx - s0.smooth_x) * alpha
        smooth_y := s0.smooth_y + (ty - s0.smooth_y) * alpha }
    (s2, pyInt s2.smooth_x, pyInt s2.smooth_y)

/-- Pinch hysteresis and click-release handling of process
(lines 237-271).  Sum.inl carries an early return: the new state and the
actions emitted after the cursor move.  Sum.inr is the fall-through to
the fist handling, with the state as updated so far (the source falls
through when no hysteresis edge fires, when the hold was too long or the
cooldown has not elapsed, and in the peace branch when the right-click
cooldown has not elapsed). -/
def pinchSection (cfg : Config) (s : CState) (f : Frame) :
    (CState × List Action) ⊕ CState :=
  if s.is_pinching = false ∧ f.pinchDist < cfg.PINCH_CLOSE then
    Sum.inr { s with is_pinching := true, pinch_start_time := f.now }
  else if s.is_pinching = true ∧ cfg.PINCH_OPEN < f.pinchDist then
    let s1 := { s with is_pinching := false }
    if f.now - s1.pinch_start_time < 9/20 ∧
        cfg.CLICK_COOLDOWN < f.now - s1.last_click_time then
      let s2 := { s1 with last_click_time := f.now }
      if s2.is_dragging = true then
        Sum.inl ({ s2 with is_dragging := false, gesture_text := "Released" },
          [Action.mouseUp])
      else if peace f.fingers then
        if cfg.CLICK_COOLDOWN < f.now - s2.last_right_click_time then
          Sum.inl ({ s2 with
              last_right_click_time := f.now
              gesture_text := "Right Click!"
              total_clicks := s2.total_clicks + 1 }, [Action.rightClick])
        else
          Sum.inr s2
      else
        if f.now - s2.last_single_click_time < cfg.DOUBLE_CLICK_WINDOW then
          Sum.inl ({ s2 with
              last_single_click_time := 0
              gesture_text := "Double Click!"
              total_clicks := s2.total_clicks + 1 }, [Action.doubleClick])
        else
          Sum.inl ({ s2 with
              last_single_click_time := f.now
              gesture_text := "Click!"
              total_clicks := s2.total_clicks + 1 }, [Action.click])
    else
      Sum.inr s1
  else
    Sum.inr s

/-- Fist handling of process (lines 273-287): a confirmed fist starts or
continues the drag; a non-fist frame while dragging releases the button
immediately; an unconfirmed fist falls through with the history already
extended by the confirmation call. -/
def fistSection (cfg : Config) (s : CState) (f : Frame) :
    (CState × List Action) ⊕ CState :=
  if allCurled f.fingers then
    let r := confirmGesture cfg s Gesture.fist
    if r.2 = true then
      if r.1.is_dragging = false then
        Sum.inl ({ r.1 with is_dragging := true, gesture_text := "Dragging" },
          [Action.mouseDown])
      else
        Sum.inl ({ r.1 with gesture_text := "Dragging" }, [])
    else
      Sum.inr r.1
  else if s.is_dragging = true then
    Sum.inl ({ s with is_dragging := false, gesture_text := "Released" },
      [Action.mouseUp])
  else
    Sum.inr s

/-- Scroll handling of process (lines 289-316): entering scroll mode
records the palm origin; from the third stabilized frame on, a scroll is
emitted when the scaled palm delta magnitude exceeds 0.2, with the amount
truncated and clamped to [-15, 15]; leaving open palm resets the scroll
state and falls through. -/
def scrollSection (cfg : Config) (s : CState) (f : Frame) :
    (CState × List Action) ⊕ CState :=
  if openPalm f.fingers then
    let palm_y := palmAvgY f
    let r : CState × List Action :=
      if s.is_scrolling = false then
        ({ s with
            is_scrolling := true
            scroll_origin_y := palm_y
            last_scroll_y := palm_y
            scroll_frames := 0
            gesture_text := "Scroll Ready" }, [])
      else
        if 3 ≤ s.scroll_frames + 1 then
          let delta := (palm_y - s.last_scroll_y) * cfg.SCROLL_SENSITIVITY
          let s1 := { s with
              scroll_frames := s.scroll_frames + 1
              last_scroll_y := palm_y }
          if 1/5 < |delta| then
            ({ s1 with
                gesture_text := "Scroll"
                total_scrolls := s1.total_scrolls + 1 },
              [Action.scroll (max (-15) (min 15 (pyInt (-delta * 5))))])
          else
            (s1, [])
        else
          ({ s with scroll_frames := s.scroll_frames + 1 }, [])
    Sum.inl ((confirmGesture cfg r.1 Gesture.scroll).1, r.2)
  else
    Sum.inr { s with is_scrolling := false, scroll_frames := 0 }

/-- Display fall-through of process (lines 318-330): feeds the
confirmation filter the display label; no OS action. -/
def defaultSection (cfg : Config) (s : CState) (f : Frame) : CState :=
  if pointing f.fingers then
    { (confirmGesture cfg s Gesture.point).1 with gesture_text := "Pointing" }
  else if s.is_pinching = true then
    { (confirmGesture cfg s Gesture.pinch).1 with gesture_text := "Pinch Hold" }
  else if peace f.fingers then
    { (confirmGesture cfg s Gesture.peace).1 with gesture_text := "Peace" }
  else
    { (confirmGesture cfg s Gesture.idle).1 with gesture_text := "Idle" }

/-- One call of GestureDesktopController.process (lines 215-330): cursor
move first, then the pinch, fist, scroll and display sections in the
source order, with the source early returns.  Returns the new state and
the emitted OS actions in order. -/
def process (cfg : Config) (s0 : CState) (f : Frame) : CState × List Action :=
  let t := mapToScreen cfg f.indexX f.indexY
  let m := smoothMove cfg s0 t.1 t.2
  let move := Action.moveTo m.2.1 m.2.2
  (pinchSection cfg m.1 f).elim (fun r => (r.1, move :: r.2)) (fun s2 =>
    (fistSection cfg s2 f).elim (fun r => (r.1, move :: r.2)) (fun s3 =>
      (scrollSection cfg s3 f).elim (fun r => (r.1, move :: r.2)) (fun s4 =>
        (defaultSection cfg s4 f, [move]))))

/-- The hand-lost handler on_hand_lost (lines 332-342): release the
button when dragging, clear the drag, pinch and scroll state, reset the
confirmed label to idle and clear the history. -/
def onHandLost (s : CState) : CState × List Action :=
  let r : CState × List Action :=
    if s.is_dragging = true then
      ({ s with is_dragging := false }, [Action.mouseUp])
    else
      (s, [])
  ({ r.1 with
      is_scrolling := false
      is_pinching := false
      scroll_frames := 0
      gesture_text := "No hand"
      current_confirmed_gesture := Gesture.idle
      gesture_history := [] }, r.2)

/-- Events the controller state reacts to: a processed landmark frame, or
a hand-lost or pause trigger (both invoke on_hand_lost, lines 477 and
488). -/
inductive Event
  | frame (f : Frame)
  | lost

/-- One event step of the controller. -/
def stepEv (cfg : Config) (s : CState) : Event → CState × List Action
  | Event.frame f => process cfg s f
  | Event.lost => onHandLost s

/-- Run over a trace of events, accumulating the OS-action log. -/
def runEv (cfg : Config) (s : CState) : List Event → CState × List Action
  | [] => (s, [])
  | e :: es =>
    let r := stepEv cfg s e
    let r2 := runEv cfg r.1 es
    (r2.1, r.2 ++ r2.2)

/-- Fold of one OS action on the held-button flag: mouseDown presses,
mouseUp releases, everything else leaves it unchanged. -/
def buttonUpd (b : Bool) : Action → Bool
  | Action.mouseDown => true
  | Action.mouseUp => false
  | _ => b

/-- Whether the button is held after an action log, starting released. -/
def buttonHeld (l : List Action) : Bool :=
  l.foldl buttonUpd false

/-- One iteration of the hand-presence logic of the main capture loop
(lines 455-477): a detected hand is processed and resets the no-hand
counter; a missed detection increments it, and from the third consecutive
missed frame on the hand-lost handler runs. -/
def loopStep (cfg : Config) (st : ℕ × CState) (obs : Option Frame) :
    (ℕ × CState) × List Action :=
  match obs with
  | some f => ((0, (process cfg st.2 f).1), (process cfg st.2 f).2)
  | none =>
    if 3 ≤ st.1 + 1 then
      ((st.1 + 1, (onHandLost st.2).1), (onHandLost st.2).2)
    else
      ((st.1 + 1, st.2), [])

/-- Run of the capture loop over a list of detector observations. -/
def loopRun (cfg : Config) (st : ℕ × CState) :
    List (Option Frame) → (ℕ × CState) × List Action
  | [] => (st, [])
  | o :: os =>
    let r := loopStep cfg st o
    let r2 := loopRun cfg r.1 os
    (r2.1, r.2 ++ r2.2)

/-- Iterated smoother under a constant raw target, for the dead-zone
idempotence analysis. -/
def iterSmooth (cfg : Config) (tx ty : ℚ) (s : CState) : ℕ → CState
  | 0 => s
  | n + 1 => (smoothMove cfg (iterSmooth cfg tx ty s n) tx ty).1

/-- The raw mapped cursor target of a frame (the argument pair process
passes to the smoother). -/
def mapped (cfg : Config) (f : Frame) : ℚ × ℚ :=
  mapToScreen cfg f.indexX f.indexY

/-- The controller state after the cursor-move stage of process. -/
def smState (cfg : Config) (s : CState) (f : Frame) : CState :=
  (smoothMove cfg s (mapped cfg f).1 (mapped cfg f).2).1

/-- The cursor-move action process emits first. -/
def smMove (cfg : Config) (s : CState) (f : Frame) : Action :=
  Action.moveTo (smoothMove cfg s (mapped cfg f).1 (mapped cfg f).2).2.1
    (smoothMove cfg s (mapped cfg f).1 (mapped cfg f).2).2.2

/-- Concrete open-palm frames with palm height i/100 at frame i, used as
scenario inputs. -/
def wPalmFrames (i : ℕ) : Frame :=
  { fingers := ⟨true, true, true, true, true⟩
    pinchDist := 1
    indexX := 1/2
    indexY := 1/2
    y0 := (i : ℚ)/100
    y5 := (i : ℚ)/100
    y9 := (i : ℚ)/100
    y13 := (i : ℚ)/100
    y17 := (i : ℚ)/100
    now := (i : ℚ) }

/-- Concrete release frame: pinch distance 0.1 above PINCH_OPEN, index
pointing (no peace), at time 1. -/
def wPinchFrame : Frame :=
  { fingers := ⟨true, true, false, false, false⟩
    pinchDist := 1/10
    indexX := 1/2
    indexY := 1/2
    y0 := 0
    y5 := 0
    y9 := 0
    y13 := 0
    y17 := 0
    now := 1 }

/-- Concrete closed-pinch state: pinch began at 0.7, a single click was
recorded at 0.8, nothing else pending. -/
def wPinchState : CState :=
  { initState (srcConfig 1920 1080) with
    is_pinching := true
    pinch_start_time := 7/10
    last_single_click_time := 8/10 }

/-- Concrete state two frames into scroll mode with palm anchor 0. -/
def wScrollState : CState :=
  { initState (srcConfig 1920 1080) with
    is_scrolling := true
    scroll_frames := 2 }

/-- A 2-D point with real coordinates, for the geometry utility. -/
structure Pt where
  x : ℝ
  y : ℝ

/-- Classification of the click-family actions (single, double, right
click) as opposed to press/release, move and scroll. -/
def clickFamily : Action → Bool
  | Action.click => true
  | Action.doubleClick => true
  | Action.rightClick => true
  | _ => false

/-- Iterated application of the confirmation filter to a list of raw
candidate labels, keeping the state. -/
def confirmRun (cfg : Config) (s : CState) (gs : List Gesture) : CState :=
  gs.foldl (fun t g => (confirmGesture cfg t g).1) s

/-- The angle utility _angle (lines 125-130): angle in degrees at vertex
b between the segments to a and c, via the dot product over the product
of euclidean norms with the 1e-9 epsilon guard, the cosine clipped to
[-1, 1] before arccos, converted to degrees. -/
noncomputable def angle (a b c : Pt) : ℝ :=
  let v1x := a.x - b.x
  let v1y := a.y - b.y
  let v2x := c.x - b.x
  let v2y := c.y - b.y
  let cosv := (v1x * v2x + v1y * v2y) /
    (Real.sqrt (v1x ^ 2 + v1y ^ 2) * Real.sqrt (v2x ^ 2 + v2y ^ 2) + 1 / 1000000000)
  Real.arccos (max (-1) (min 1 cosv)) * (180 / Real.pi)

/-!
Helper lemmas: field preservation and action shapes of the per-frame
sections, feeding the claim theorems below.
-/

/-- The confirmation filter only touches the history, the confirmed
label, the run counter. -/
theorem confirmGesture_preserve (cfg : Config) (s : CState) (g : Gesture) :
    (confirmGesture cfg s g).1.is_dragging = s.is_dragging ∧
    (confirmGesture cfg s g).1.is_pinching = s.is_pinching ∧
    (confirmGesture cfg s g).1.is_scrolling = s.is_scrolling ∧
    (confirmGesture cfg s g).1.scroll_frames = s.scroll_frames ∧
    (confirmGesture cfg s g).1.last_scroll_y = s.last_scroll_y ∧
    (confirmGesture cfg s g).1.smooth_x = s.smooth_x ∧
    (confirmGesture cfg s g).1.smooth_y = s.smooth_y := by
  simp only [confirmGesture]
  split
  · exact ⟨rfl, rfl, rfl, rfl, rfl, rfl, rfl⟩
  · split <;> split <;> exact ⟨rfl, rfl, rfl, rfl, rfl, rfl, rfl⟩

/-- Projection form of the preservation facts, convenient for rewriting. -/
theorem confirm_keeps_dragging (cfg : Config) (s : CState) (g : Gesture) :
    (confirmGesture cfg s g).1.is_dragging = s.is_dragging :=
  (confirmGesture_preserve cfg s g).1

theorem confirm_keeps_pinching (cfg : Config) (s : CState) (g : Gesture) :
    (confirmGesture cfg s g).1.is_pinching = s.is_pinching :=
  (confirmGesture_preserve cfg s g).2.1

theorem confirm_keeps_smooth_x (cfg : Config) (s : CState) (g : Gesture) :
    (confirmGesture cfg s g).1.smooth_x = s.smooth_x :=
  (confirmGesture_preserve cfg s g).2.2.2.2.2.1

theorem confirm_keeps_smooth_y (cfg : Config) (s : CState) (g : Gesture) :
    (confirmGesture cfg s g).1.smooth_y = s.smooth_y :=
  (confirmGesture_preserve cfg s g).2.2.2.2.2.2

/-- The smoother only touches the smoothed position and the previous raw
target, and emits the truncated new smoothed position. -/
theorem smoothMove_shape (cfg : Config) (s : CState) (tx ty : ℚ) :
    ∃ a b, (smoothMove cfg s tx ty).1 =
      { s with smooth_x := a, smooth_y := b, prev_target_x := tx, prev_target_y := ty } ∧
      (smoothMove cfg s tx ty).2 = (pyInt a, pyInt b) := by
  simp only [smoothMove]
  split
  · exact ⟨s.smooth_x, s.smooth_y, rfl, rfl⟩
  · exact ⟨_, _, rfl, rfl⟩

/-- Characterization of an early return of the pinch section: it comes
from the open edge, clears the pinch flag, leaves the smoothed position
alone, and emits either the drag release or exactly one click-family
action while not dragging. -/
theorem pinchSection_inl {cfg : Config} {s : CState} {f : Frame}
    {r : CState × List Action} (h : pinchSection cfg s f = Sum.inl r) :
    r.1.smooth_x = s.smooth_x ∧ r.1.smooth_y = s.smooth_y ∧
    r.1.is_pinching = false ∧ s.is_pinching = true ∧
    cfg.PINCH_OPEN < f.pinchDist ∧
    r.1.is_scrolling = s.is_scrolling ∧ r.1.scroll_frames = s.scroll_frames ∧
    r.1.last_scroll_y = s.last_scroll_y ∧
    ((r.2 = [Action.mouseUp] ∧ s.is_dragging = true ∧ r.1.is_dragging = false) ∨
     ((r.2 = [Action.rightClick] ∨ r.2 = [Action.doubleClick] ∨ r.2 = [Action.click]) ∧
      s.is_dragging = false ∧ r.1.is_dragging = false)) := by
  simp only [pinchSection] at h
  split at h
  · cases h
  · split at h
    · rename_i h1 h2
      split at h
      · split at h
        · rename_i h3 h4
          cases h
          exact ⟨rfl, rfl, rfl, h2.1, h2.2, rfl, rfl, rfl, Or.inl ⟨rfl, h4, rfl⟩⟩
        · split at h
          · split at h
            · cases h
              rename_i h3 h4 h5 h6
              refine ⟨rfl, rfl, rfl, h2.1, h2.2, rfl, rfl, rfl, Or.inr ⟨Or.inl rfl, ?_, ?_⟩⟩
              · simpa using h4
              · simpa using h4
            · cases h
          · split at h
            · cases h
              rename_i h3 h4 h5 h6
              refine ⟨rfl, rfl, rfl, h2.1, h2.2, rfl, rfl, rfl,
                Or.inr ⟨Or.inr (Or.inl rfl), ?_, ?_⟩⟩
              · simpa using h4
              · simpa using h4
            · cases h
              rename_i h3 h4 h5 h6
              refine ⟨rfl, rfl, rfl, h2.1, h2.2, rfl, rfl, rfl,
                Or.inr ⟨Or.inr (Or.inr rfl), ?_, ?_⟩⟩
              · simpa using h4
              · simpa using h4
      · cases h
    · cases h

/-- Characterization of a fall-through of the pinch section: everything
but the pinch timing state is preserved, and the pinch flag follows the
hysteresis rule of lines 238-242. -/
theorem pinchSection_inr {cfg : Config} {s : CState} {f : Frame} {s2 : CState}
    (h : pinchSection cfg s f = Sum.inr s2) :
    s2.smooth_x = s.smooth_x ∧ s2.smooth_y = s.smooth_y ∧
    s2.is_dragging = s.is_dragging ∧ s2.is_scrolling = s.is_scrolling ∧
    s2.scroll_frames = s.scroll_frames ∧ s2.last_scroll_y = s.last_scroll_y ∧
    s2.gesture_history = s.gesture_history ∧
    s2.current_confirmed_gesture = s.current_confirmed_gesture ∧
    s2.is_pinching =
      (if s.is_pinching = false ∧ f.pinchDist < cfg.PINCH_CLOSE then true
       else if s.is_pinching = true ∧ cfg.PINCH_OPEN < f.pinchDist then false
       else s.is_pinching) := by
  simp only [pinchSection] at h
  split at h
  · rename_i h1
    cases h
    exact ⟨rfl, rfl, rfl, rfl, rfl, rfl, rfl, rfl, by simp [h1]⟩
  · split at h
    · rename_i h1 h2
      split at h
      · split at h
        · cases h
        · split at h
          · split at h
            · cases h
            · cases h
              exact ⟨rfl, rfl, rfl, rfl, rfl, rfl, rfl, rfl, by simp [h1, h2]⟩
          · split at h
            · cases h
            · cases h
      · cases h
        exact ⟨rfl, rfl, rfl, rfl, rfl, rfl, rfl, rfl, by simp [h1, h2]⟩
    · rename_i h1 h2
      cases h
      exact ⟨rfl, rfl, rfl, rfl, rfl, rfl, rfl, rfl, by simp [h1, h2]⟩

/-- Characterization of an early return of the fist section: the pinch
and scroll state and the smoothed position are preserved, and the button
actions agree with the drag flag transition. -/
theorem fistSection_inl {cfg : Config} {s : CState} {f : Frame}
    {r : CState × List Action} (h : fistSection cfg s f = Sum.inl r) :
    r.1.smooth_x = s.smooth_x ∧ r.1.smooth_y = s.smooth_y ∧
    r.1.is_pinching = s.is_pinching ∧ r.1.is_scrolling = s.is_scrolling ∧
    r.1.scroll_frames = s.scroll_frames ∧ r.1.last_scroll_y = s.last_scroll_y ∧
    ((r.2 = [Action.mouseDown] ∧ s.is_dragging = false ∧ r.1.is_dragging = true) ∨
     (r.2 = [] ∧ r.1.is_dragging = s.is_dragging) ∨
     (r.2 = [Action.mouseUp] ∧ s.is_dragging = true ∧ r.1.is_dragging = false)) := by
  obtain ⟨p1, p2, p3, p4, p5, p6, p7⟩ := confirmGesture_preserve cfg s Gesture.fist
  simp only [fistSection] at h
  split at h
  · split at h
    · split at h
      · rename_i hcu hcf hdr
        cases h
        refine ⟨p6, p7, p2, p3, p4, p5, Or.inl ⟨rfl, ?_, rfl⟩⟩
        rw [← p1]; exact hdr
      · cases h
        exact ⟨p6, p7, p2, p3, p4, p5, Or.inr (Or.inl ⟨rfl, p1⟩)⟩
    · cases h
  · split at h
    · rename_i hcu hdr
      cases h
      exact ⟨rfl, rfl, rfl, rfl, rfl, rfl, Or.inr (Or.inr ⟨rfl, hdr, rfl⟩)⟩
    · cases h

/-- Characterization of a fall-through of the fist section: the state is
preserved up to the confirmation filter bookkeeping. -/
theorem fistSection_inr {cfg : Config} {s : CState} {f : Frame} {s2 : CState}
    (h : fistSection cfg s f = Sum.inr s2) :
    s2.smooth_x = s.smooth_x ∧ s2.smooth_y = s.smooth_y ∧
    s2.is_pinching = s.is_pinching ∧ s2.is_dragging = s.is_dragging ∧
    s2.is_scrolling = s.is_scrolling ∧ s2.scroll_frames = s.scroll_frames ∧
    s2.last_scroll_y = s.last_scroll_y := by
  obtain ⟨p1, p2, p3, p4, p5, p6, p7⟩ := confirmGesture_preserve cfg s Gesture.fist
  simp only [fistSection] at h
  split at h
  · split at h
    · split at h
      · cases h
      · cases h
    · cases h
      exact ⟨p6, p7, p2, p1, p3, p4, p5⟩
  · split at h
    · cases h
    · cases h
      exact ⟨rfl, rfl, rfl, rfl, rfl, rfl, rfl⟩

/-- Characterization of an early return of the scroll section: drag and
pinch flags and the smoothed position are preserved; the emitted actions
are empty or exactly one clamped scroll whose delta magnitude passed the
0.2 threshold. -/
theorem scrollSection_inl {cfg : Config} {s : CState} {f : Frame}
    {r : CState × List Action} (h : scrollSection cfg s f = Sum.inl r) :
    r.1.smooth_x = s.smooth_x ∧ r.1.smooth_y = s.smooth_y ∧
    r.1.is_pinching = s.is_pinching ∧ r.1.is_dragging = s.is_dragging ∧
    (r.2 = [] ∨
     (r.2 = [Action.scroll (max (-15) (min 15
        (pyInt (-((palmAvgY f - s.last_scroll_y) * cfg.SCROLL_SENSITIVITY) * 5))))] ∧
      1/5 < |(palmAvgY f - s.last_scroll_y) * cfg.SCROLL_SENSITIVITY|)) := by
  simp only [scrollSection] at h
  split at h
  · split at h
    · cases h
      exact ⟨confirm_keeps_smooth_x .., confirm_keeps_smooth_y ..,
        confirm_keeps_pinching .., confirm_keeps_dragging .., Or.inl rfl⟩
    · split at h
      · split at h
        · cases h
          rename_i hop hsc hfr hmag
          exact ⟨confirm_keeps_smooth_x .., confirm_keeps_smooth_y ..,
            confirm_keeps_pinching .., confirm_keeps_dragging .., Or.inr ⟨rfl, hmag⟩⟩
        · cases h
          exact ⟨confirm_keeps_smooth_x .., confirm_keeps_smooth_y ..,
            confirm_keeps_pinching .., confirm_keeps_dragging .., Or.inl rfl⟩
      · cases h
        exact ⟨confirm_keeps_smooth_x .., confirm_keeps_smooth_y ..,
          confirm_keeps_pinching .., confirm_keeps_dragging .., Or.inl rfl⟩
  · cases h

/-- A fall-through of the scroll section is exactly the scroll-state
reset of lines 314-316. -/
theorem scrollSection_inr {cfg : Config} {s : CState} {f : Frame} {s2 : CState}
    (h : scrollSection cfg s f = Sum.inr s2) :
    s2 = { s with is_scrolling := false, scroll_frames := 0 } ∧
    ¬ openPalm f.fingers := by
  simp only [scrollSection] at h
  split at h
  · split at h
    · cases h
    · split at h
      · split at h
        · cases h
        · cases h
      · cases h
  · rename_i hop
    cases h
    exact ⟨rfl, hop⟩

/-- The display fall-through only touches the confirmation bookkeeping
and the display text. -/
theorem defaultSection_preserve (cfg : Config) (s : CState) (f : Frame) :
    (defaultSection cfg s f).is_dragging = s.is_dragging ∧
    (defaultSection cfg s f).is_pinching = s.is_pinching ∧
    (defaultSection cfg s f).smooth_x = s.smooth_x ∧
    (defaultSection cfg s f).smooth_y = s.smooth_y ∧
    (defaultSection cfg s f).is_scrolling = s.is_scrolling ∧
    (defaultSection cfg s f).scroll_frames = s.scroll_frames ∧
    (defaultSection cfg s f).last_scroll_y = s.last_scroll_y := by
  simp only [defaultSection]
  split
  · obtain ⟨p1, p2, p3, p4, p5, p6, p7⟩ := confirmGesture_preserve cfg s Gesture.point
    exact ⟨p1, p2, p6, p7, p3, p4, p5⟩
  · split
    · obtain ⟨p1, p2, p3, p4, p5, p6, p7⟩ := confirmGesture_preserve cfg s Gesture.pinch
      exact ⟨p1, p2, p6, p7, p3, p4, p5⟩
    · split
      · obtain ⟨p1, p2, p3, p4, p5, p6, p7⟩ := confirmGesture_preserve cfg s Gesture.peace
        exact ⟨p1, p2, p6, p7, p3, p4, p5⟩
      · obtain ⟨p1, p2, p3, p4, p5, p6, p7⟩ := confirmGesture_preserve cfg s Gesture.idle
        exact ⟨p1, p2, p6, p7, p3, p4, p5⟩

/-- Folding the frame's emitted actions onto the held-button flag tracks
the drag flag: every mouseDown/mouseUp of process is paired with the
corresponding is_dragging transition. -/
theorem process_drag_fold (cfg : Config) (s : CState) (f : Frame) :
    List.foldl buttonUpd s.is_dragging (process cfg s f).2 =
      (process cfg s f).1.is_dragging := by
  obtain ⟨a, b, hs, -⟩ := smoothMove_shape cfg s (mapToScreen cfg f.indexX f.indexY).1
    (mapToScreen cfg f.indexX f.indexY).2
  have hsm : ((smoothMove cfg s (mapToScreen cfg f.indexX f.indexY).1
      (mapToScreen cfg f.indexX f.indexY).2).1).is_dragging = s.is_dragging := by
    rw [hs]
  simp only [process]
  cases hp : pinchSection cfg ((smoothMove cfg s (mapToScreen cfg f.indexX f.indexY).1
      (mapToScreen cfg f.indexX f.indexY).2).1) f with
  | inl r =>
    simp only [hp, Sum.elim_inl]
    obtain ⟨-, -, -, -, -, -, -, -, hact⟩ := pinchSection_inl hp
    rcases hact with ⟨he, hd, hr⟩ | ⟨he, hd, hr⟩
    · rw [he, hr]; rfl
    · rw [hr]
      rcases he with he | he | he <;> rw [he] <;>
        (show s.is_dragging = false) <;> rw [← hsm] <;> exact hd
  | inr s2 =>
    simp only [hp, Sum.elim_inr]
    obtain ⟨-, -, hd2, -, -, -, -, -, -⟩ := pinchSection_inr hp
    cases hf : fistSection cfg s2 f with
    | inl r =>
      simp only [hf, Sum.elim_inl]
      obtain ⟨-, -, -, -, -, -, hact⟩ := fistSection_inl hf
      rcases hact with ⟨he, hd, hr⟩ | ⟨he, hr⟩ | ⟨he, hd, hr⟩
      · rw [he, hr]; rfl
      · rw [he, hr, hd2, hsm]; rfl
      · rw [he, hr]; rfl
    | inr s3 =>
      simp only [hf, Sum.elim_inr]
      obtain ⟨-, -, -, hd3, -, -, -⟩ := fistSection_inr hf
      cases hsc : scrollSection cfg s3 f with
      | inl r =>
        simp only [hsc, Sum.elim_inl]
        obtain ⟨-, -, -, hd4, hact⟩ := scrollSection_inl hsc
        rcases hact with he | ⟨he, -⟩ <;> rw [he, hd4, hd3, hd2, hsm] <;> rfl
      | inr s4 =>
        simp only [hsc, Sum.elim_inr]
        obtain ⟨hs4, -⟩ := scrollSection_inr hsc
        rw [(defaultSection_preserve cfg s4 f).1, hs4]
        show s.is_dragging = s3.is_dragging
        rw [hd3, hd2, hsm]

/-- The pinch flag after a processed frame follows exactly the
hysteresis rule of lines 238-242; no other part of process writes it. -/
theorem process_is_pinching (cfg : Config) (s : CState) (f : Frame) :
    (process cfg s f).1.is_pinching =
      (if s.is_pinching = false ∧ f.pinchDist < cfg.PINCH_CLOSE then true
       else if s.is_pinching = true ∧ cfg.PINCH_OPEN < f.pinchDist then false
       else s.is_pinching) := by
  obtain ⟨a, b, hs, -⟩ := smoothMove_shape cfg s (mapToScreen cfg f.indexX f.indexY).1
    (mapToScreen cfg f.indexX f.indexY).2
  have hpin : ((smoothMove cfg s (mapToScreen cfg f.indexX f.indexY).1
      (mapToScreen cfg f.indexX f.indexY).2).1).is_pinching = s.is_pinching := by
    rw [hs]
  simp only [process]
  cases hp : pinchSection cfg ((smoothMove cfg s (mapToScreen cfg f.indexX f.indexY).1
      (mapToScreen cfg f.indexX f.indexY).2).1) f with
  | inl r =>
    simp only [hp, Sum.elim_inl]
    obtain ⟨-, -, hrp, hsp, hdist, -, -, -, -⟩ := pinchSection_inl hp
    rw [hpin] at hsp
    rw [hrp, hsp]
    simp [hdist]
  | inr s2 =>
    simp only [hp, Sum.elim_inr]
    obtain ⟨-, -, -, -, -, -, -, -, h9⟩ := pinchSection_inr hp
    rw [hpin] at h9
    cases hf : fistSection cfg s2 f with
    | inl r =>
      simp only [hf, Sum.elim_inl]
      rw [(fistSection_inl hf).2.2.1, h9]
    | inr s3 =>
      simp only [hf, Sum.elim_inr]
      have h10 := (fistSection_inr hf).2.2.1
      cases hsc : scrollSection cfg s3 f with
      | inl r =>
        simp only [hsc, Sum.elim_inl]
        rw [(scrollSection_inl hsc).2.2.1, h10, h9]
      | inr s4 =>
        simp only [hsc, Sum.elim_inr]
        obtain ⟨hs4, -⟩ := scrollSection_inr hsc
        rw [(defaultSection_preserve cfg s4 f).2.1, hs4]
        show s3.is_pinching = _
        rw [h10, h9]

/-- Branch form of the smoother result: either the update was suppressed
by the dead zone, or the blend was applied on both axes. -/
theorem smoothMove_smooth_cases (cfg : Config) (s : CState) (tx ty : ℚ) :
    ((smoothMove cfg s tx ty).1.smooth_x = s.smooth_x ∧
     (smoothMove cfg s tx ty).1.smooth_y = s.smooth_y) ∨
    ((smoothMove cfg s tx ty).1.smooth_x =
        s.smooth_x + (tx - s.smooth_x) * smoothAlpha cfg s tx ty ∧
     (smoothMove cfg s tx ty).1.smooth_y =
        s.smooth_y + (ty - s.smooth_y) * smoothAlpha cfg s tx ty) := by
  simp only [smoothMove]
  split
  · exact Or.inl ⟨rfl, rfl⟩
  · exact Or.inr ⟨rfl, rfl⟩

/-- The smoothed position after a processed frame is the one the
smoother computed; the gesture sections never touch it. -/
theorem process_smooth_eq (cfg : Config) (s : CState) (f : Frame) :
    (process cfg s f).1.smooth_x =
      ((smoothMove cfg s (mapToScreen cfg f.indexX f.indexY).1
        (mapToScreen cfg f.indexX f.indexY).2).1).smooth_x ∧
    (process cfg s f).1.smooth_y =
      ((smoothMove cfg s (mapToScreen cfg f.indexX f.indexY).1
        (mapToScreen cfg f.indexX f.indexY).2).1).smooth_y := by
  simp only [process]
  cases hp : pinchSection cfg ((smoothMove cfg s (mapToScreen cfg f.indexX f.indexY).1
      (mapToScreen cfg f.indexX f.indexY).2).1) f with
  | inl r =>
    simp only [hp, Sum.elim_inl]
    exact ⟨(pinchSection_inl hp).1, (pinchSection_inl hp).2.1⟩
  | inr s2 =>
    simp only [hp, Sum.elim_inr]
    obtain ⟨hx2, hy2, -, -, -, -, -, -, -⟩ := pinchSection_inr hp
    cases hf : fistSection cfg s2 f with
    | inl r =>
      simp only [hf, Sum.elim_inl]
      obtain ⟨hx3, hy3, -, -, -, -, -⟩ := fistSection_inl hf
      exact ⟨hx3.trans hx2, hy3.trans hy2⟩
    | inr s3 =>
      simp only [hf, Sum.elim_inr]
      obtain ⟨hx3, hy3, -, -, -, -, -⟩ := fistSection_inr hf
      cases hsc : scrollSection cfg s3 f with
      | inl r =>
        simp only [hsc, Sum.elim_inl]
        obtain ⟨hx4, hy4, -, -, -⟩ := scrollSection_inl hsc
        exact ⟨(hx4.trans hx3).trans hx2, (hy4.trans hy3).trans hy2⟩
      | inr s4 =>
        simp only [hsc, Sum.elim_inr]
        obtain ⟨hs4, -⟩ := scrollSection_inr hsc
        have d1 := (defaultSection_preserve cfg s4 f).2.2.1
        have d2 := (defaultSection_preserve cfg s4 f).2.2.2.1
        rw [d1, d2, hs4]
        exact ⟨hx3.trans hx2, hy3.trans hy2⟩

/-- Every pointer-move action a processed frame emits carries the
truncated smoothed position of the resulting state (the move is the
first emitted action; no other emitted action is a move). -/
theorem process_moveTo_mem (cfg : Config) (s : CState) (f : Frame) (x y : ℤ)
    (h : Action.moveTo x y ∈ (process cfg s f).2) :
    x = pyInt ((process cfg s f).1.smooth_x) ∧
    y = pyInt ((process cfg s f).1.smooth_y) := by
  obtain ⟨a, b, hs, ho⟩ := smoothMove_shape cfg s (mapToScreen cfg f.indexX f.indexY).1
    (mapToScreen cfg f.indexX f.indexY).2
  have hsx : ((smoothMove cfg s (mapToScreen cfg f.indexX f.indexY).1
      (mapToScreen cfg f.indexX f.indexY).2).1).smooth_x = a := by rw [hs]
  have hsy : ((smoothMove cfg s (mapToScreen cfg f.indexX f.indexY).1
      (mapToScreen cfg f.indexX f.indexY).2).1).smooth_y = b := by rw [hs]
  have hco : (smoothMove cfg s (mapToScreen cfg f.indexX f.indexY).1
      (mapToScreen cfg f.indexX f.indexY).2).2 = (pyInt a, pyInt b) := ho
  obtain ⟨hpx, hpy⟩ := process_smooth_eq cfg s f
  rw [hpx, hpy, hsx, hsy]
  revert h
  simp only [process]
  cases hp : pinchSection cfg ((smoothMove cfg s (mapToScreen cfg f.indexX f.indexY).1
      (mapToScreen cfg f.indexX f.indexY).2).1) f with
  | inl r =>
    simp only [hp, Sum.elim_inl]
    obtain ⟨-, -, -, -, -, -, -, -, hact⟩ := pinchSection_inl hp
    intro h
    rcases List.mem_cons.mp h with h1 | h1
    · rw [hco] at h1
      exact ⟨(Action.moveTo.injEq _ _ _ _ ▸ h1).1, (Action.moveTo.injEq _ _ _ _ ▸ h1).2⟩
    · exfalso
      rcases hact with ⟨he, -, -⟩ | ⟨he, -, -⟩
      · rw [he] at h1; simp at h1
      · rcases he with he | he | he <;> rw [he] at h1 <;> simp at h1
  | inr s2 =>
    simp only [hp, Sum.elim_inr]
    cases hf : fistSection cfg s2 f with
    | inl r =>
      simp only [hf, Sum.elim_inl]
      obtain ⟨-, -, -, -, -, -, hact⟩ := fistSection_inl hf
      intro h
      rcases List.mem_cons.mp h with h1 | h1
      · rw [hco] at h1
        exact ⟨(Action.moveTo.injEq _ _ _ _ ▸ h1).1, (Action.moveTo.injEq _ _ _ _ ▸ h1).2⟩
      · exfalso
        rcases hact with ⟨he, -, -⟩ | ⟨he, -⟩ | ⟨he, -, -⟩ <;> rw [he] at h1 <;> simp at h1
    | inr s3 =>
      simp only [hf, Sum.elim_inr]
      cases hsc : scrollSection cfg s3 f with
      | inl r =>
        simp only [hsc, Sum.elim_inl]
        obtain ⟨-, -, -, -, hact⟩ := scrollSection_inl hsc
        intro h
        rcases List.mem_cons.mp h with h1 | h1
        · rw [hco] at h1
          exact ⟨(Action.moveTo.injEq _ _ _ _ ▸ h1).1, (Action.moveTo.injEq _ _ _ _ ▸ h1).2⟩
        · exfalso
          rcases hact with he | ⟨he, -⟩ <;> rw [he] at h1 <;> simp at h1
      | inr s4 =>
        simp only [hsc, Sum.elim_inr]
        intro h
        rcases List.mem_cons.mp h with h1 | h1
        · rw [hco] at h1
          exact ⟨(Action.moveTo.injEq _ _ _ _ ▸ h1).1, (Action.moveTo.injEq _ _ _ _ ▸ h1).2⟩
        · simp at h1

/-- Postconditions of the hand-lost handler: every interaction flag is
cleared, the confirmed label is idle, the history is empty, the smoothed
position is untouched, and the emitted actions are exactly one mouseUp
when a drag was active and nothing otherwise. -/
theorem onHandLost_spec (s : CState) :
    (onHandLost s).1.is_dragging = false ∧
    (onHandLost s).1.is_pinching = false ∧
    (onHandLost s).1.is_scrolling = false ∧
    (onHandLost s).1.scroll_frames = 0 ∧
    (onHandLost s).1.current_confirmed_gesture = Gesture.idle ∧
    (onHandLost s).1.gesture_history = [] ∧
    (onHandLost s).2 = (if s.is_dragging = true then [Action.mouseUp] else []) ∧
    (onHandLost s).1.smooth_x = s.smooth_x ∧
    (onHandLost s).1.smooth_y = s.smooth_y := by
  simp only [onHandLost]
  split <;> rename_i hd <;>
    refine ⟨?_, ?_, ?_, ?_, ?_, ?_, ?_, ?_, ?_⟩ <;>
    first
    | rfl
    | trivial
    | rw [if_pos hd]
    | rw [if_neg hd]
    | simpa using hd

/-- Every scroll action a processed frame emits is the truncated and
clamped amount computed from the frame's palm delta against the state's
previous scroll anchor, and is emitted only when the scaled delta
magnitude exceeds 0.2. -/
theorem process_scroll_mem (cfg : Config) (s : CState) (f : Frame) (n : ℤ)
    (h : Action.scroll n ∈ (process cfg s f).2) :
    n = max (-15) (min 15
      (pyInt (-((palmAvgY f - s.last_scroll_y) * cfg.SCROLL_SENSITIVITY) * 5))) ∧
    1/5 < |(palmAvgY f - s.last_scroll_y) * cfg.SCROLL_SENSITIVITY| := by
  obtain ⟨a, b, hs, -⟩ := smoothMove_shape cfg s (mapToScreen cfg f.indexX f.indexY).1
    (mapToScreen cfg f.indexX f.indexY).2
  have hlm : ((smoothMove cfg s (mapToScreen cfg f.indexX f.indexY).1
      (mapToScreen cfg f.indexX f.indexY).2).1).last_scroll_y = s.last_scroll_y := by
    rw [hs]
  revert h
  simp only [process]
  cases hp : pinchSection cfg ((smoothMove cfg s (mapToScreen cfg f.indexX f.indexY).1
      (mapToScreen cfg f.indexX f.indexY).2).1) f with
  | inl r =>
    simp only [hp, Sum.elim_inl]
    obtain ⟨-, -, -, -, -, -, -, -, hact⟩ := pinchSection_inl hp
    intro h
    exfalso
    rcases List.mem_cons.mp h with h1 | h1
    · simp at h1
    · rcases hact with ⟨he, -, -⟩ | ⟨he, -, -⟩
      · rw [he] at h1; simp at h1
      · rcases he with he | he | he <;> rw [he] at h1 <;> simp at h1
  | inr s2 =>
    simp only [hp, Sum.elim_inr]
    obtain ⟨-, -, -, -, -, hl2, -, -, -⟩ := pinchSection_inr hp
    cases hf : fistSection cfg s2 f with
    | inl r =>
      simp only [hf, Sum.elim_inl]
      obtain ⟨-, -, -, -, -, -, hact⟩ := fistSection_inl hf
      intro h
      exfalso
      rcases List.mem_cons.mp h with h1 | h1
      · simp at h1
      · rcases hact with ⟨he, -, -⟩ | ⟨he, -⟩ | ⟨he, -, -⟩ <;> rw [he] at h1 <;> simp at h1
    | inr s3 =>
      simp only [hf, Sum.elim_inr]
      obtain ⟨-, -, -, -, -, -, hl3⟩ := fistSection_inr hf
      have hl : s3.last_scroll_y = s.last_scroll_y := by rw [hl3, hl2, hlm]
      cases hsc : scrollSection cfg s3 f with
      | inl r =>
        simp only [hsc, Sum.elim_inl]
        obtain ⟨-, -, -, -, hact⟩ := scrollSection_inl hsc
        intro h
        rcases List.mem_cons.mp h with h1 | h1
        · simp at h1
        · rcases hact with he | ⟨he, hm⟩
          · rw [he] at h1; simp at h1
          · rw [he] at h1
            rw [List.mem_singleton] at h1
            rw [hl] at he hm
            constructor
            · have := (Action.scroll.injEq _ _).mp h1
              rw [this, hl]
            · exact hl ▸ hm
      | inr s4 =>
        simp only [hsc, Sum.elim_inr]
        intro h
        exfalso
        rcases List.mem_cons.mp h with h1 | h1
        · simp at h1
        · simp at h1

/-- One event step keeps the held-button fold aligned with the drag
flag. -/
theorem stepEv_drag_fold (cfg : Config) (s : CState) (e : Event) :
    List.foldl buttonUpd s.is_dragging (stepEv cfg s e).2 =
      (stepEv cfg s e).1.is_dragging := by
  cases e with
  | frame f => exact process_drag_fold cfg s f
  | lost =>
    obtain ⟨h1, -, -, -, -, -, h7, -, -⟩ := onHandLost_spec s
    show List.foldl buttonUpd s.is_dragging (onHandLost s).2 = (onHandLost s).1.is_dragging
    rw [h1, h7]
    by_cases hd : s.is_dragging = true
    · rw [if_pos hd]; rfl
    · rw [if_neg hd]
      simpa using hd

/-- Running a trace keeps the held-button fold aligned with the drag
flag, from any starting state. -/
theorem runEv_drag_fold (cfg : Config) (es : List Event) : ∀ s : CState,
    List.foldl buttonUpd s.is_dragging (runEv cfg s es).2 =
      (runEv cfg s es).1.is_dragging := by
  induction es with
  | nil => intro s; rfl
  | cons e es ih =>
    intro s
    show List.foldl buttonUpd s.is_dragging
      ((stepEv cfg s e).2 ++ (runEv cfg (stepEv cfg s e).1 es).2) = _
    rw [List.foldl_append, stepEv_drag_fold]
    exact ih (stepEv cfg s e).1

/-- C1: along every trace of processed frames and hand-lost or pause
events from the initial state, the OS button-held flag obtained by
folding the emitted action log is true exactly when is_dragging is true
in the resulting interaction state; and a hand-lost or pause event
taken while is_dragging is true emits exactly one button-release
(mouseUp) action. -/
theorem C1_drag_button_invariant (cfg : Config) (es : List Event) :
    buttonHeld (runEv cfg (initState cfg) es).2 =
      (runEv cfg (initState cfg) es).1.is_dragging ∧
    ∀ s : CState, s.is_dragging = true →
      List.count Action.mouseUp (onHandLost s).2 = 1 := by
  constructor
  · have h := runEv_drag_fold cfg es (initState cfg)
    simpa [buttonHeld] using h
  · intro s hd
    obtain ⟨-, -, -, -, -, -, h7, -, -⟩ := onHandLost_spec s
    rw [h7, if_pos hd]
    rfl

/-- Witness for C1: a hand-lost event in a concrete dragging state emits
exactly one mouseUp. -/
theorem C1_drag_button_invariant_witness :
    List.count Action.mouseUp
      (onHandLost { initState (srcConfig 1920 1080) with is_dragging := true }).2 = 1 :=
  (C1_drag_button_invariant (srcConfig 1920 1080) []).2
    { initState (srcConfig 1920 1080) with is_dragging := true } rfl

/-- C2: the pinch state closes only on a frame with distance strictly
below PINCH_CLOSE, opens only on a frame with distance strictly above
PINCH_OPEN, and in particular stays closed on any frame whose distance
is at most PINCH_OPEN (so a distance that has dropped below PINCH_CLOSE
and risen to a value strictly between the two thresholds keeps the state
closed, frame after frame). -/
theorem C2_pinch_hysteresis (cfg : Config) (s : CState) (f : Frame) :
    (s.is_pinching = false → (process cfg s f).1.is_pinching = true →
      f.pinchDist < cfg.PINCH_CLOSE) ∧
    (s.is_pinching = true → (process cfg s f).1.is_pinching = false →
      cfg.PINCH_OPEN < f.pinchDist) ∧
    (s.is_pinching = true → f.pinchDist ≤ cfg.PINCH_OPEN →
      (process cfg s f).1.is_pinching = true) := by
  have hp := process_is_pinching cfg s f
  refine ⟨?_, ?_, ?_⟩
  · intro h0 h'
    rw [hp] at h'
    by_cases hc : f.pinchDist < cfg.PINCH_CLOSE
    · exact hc
    · exfalso
      simp [h0, hc] at h'
  · intro h1 h'
    rw [hp] at h'
    by_cases ho : cfg.PINCH_OPEN < f.pinchDist
    · exact ho
    · exfalso
      simp [h1, ho] at h'
  · intro h1 hle
    rw [hp]
    simp [h1, not_lt.mpr hle]

/-- Witness for C2: with the source thresholds, a closed pinch state and
a frame whose distance 0.05 lies strictly between PINCH_CLOSE = 0.045
and PINCH_OPEN = 0.065 stays closed. -/
theorem C2_pinch_hysteresis_witness :
    (process (srcConfig 1920 1080)
      { initState (srcConfig 1920 1080) with is_pinching := true }
      { fingers := ⟨true, true, false, false, false⟩, pinchDist := 1/20,
        indexX := 1/2, indexY := 1/2, y0 := 0, y5 := 0, y9 := 0, y13 := 0,
        y17 := 0, now := 0 }).1.is_pinching = true :=
  (C2_pinch_hysteresis (srcConfig 1920 1080)
    { initState (srcConfig 1920 1080) with is_pinching := true }
    { fingers := ⟨true, true, false, false, false⟩, pinchDist := 1/20,
      indexX := 1/2, indexY := 1/2, y0 := 0, y5 := 0, y9 := 0, y13 := 0,
      y17 := 0, now := 0 }).2.2 rfl (by norm_num [srcConfig])

/-- C9: the angle utility is a total function on all real inputs,
including the degenerate configurations where a or c coincides with b
(the epsilon in the denominator and the clipping of the cosine keep the
arccos argument in its domain), and its value lies in [0, 180] degrees. -/
theorem C9_angle_total_range (a b c : Pt) :
    0 ≤ angle a b c ∧ angle a b c ≤ 180 := by
  have hpi : (0 : ℝ) < Real.pi := Real.pi_pos
  simp only [angle]
  constructor
  · exact mul_nonneg (Real.arccos_nonneg _) (by positivity)
  · calc Real.arccos _ * (180 / Real.pi)
        ≤ Real.pi * (180 / Real.pi) :=
          mul_le_mul_of_nonneg_right (Real.arccos_le_pi _) (by positivity)
      _ = 180 := by field_simp

/-- C5: the hand-lost handler (run on the third consecutive frame with
no detected hand, and on pause) always terminates with the button
released, the drag, pinch and scroll flags and the scroll counter
cleared, the confirmed label idle and the history empty; it emits
exactly the one mouseUp needed when a drag was active; and three
consecutive missed detections in the capture loop indeed route through
it.  Totality (the path never raises) holds by construction of the
embedding, every branch being a plain state update. -/
theorem C5_hand_lost_release (cfg : Config) (s : CState) :
    (onHandLost s).1.is_dragging = false ∧
    (onHandLost s).1.is_pinching = false ∧
    (onHandLost s).1.is_scrolling = false ∧
    (onHandLost s).1.scroll_frames = 0 ∧
    (onHandLost s).1.current_confirmed_gesture = Gesture.idle ∧
    (onHandLost s).1.gesture_history = [] ∧
    (onHandLost s).2 = (if s.is_dragging = true then [Action.mouseUp] else []) ∧
    List.foldl buttonUpd s.is_dragging (onHandLost s).2 = false ∧
    (loopRun cfg (0, s) [none, none, none]).1 = (3, (onHandLost s).1) ∧
    (loopRun cfg (0, s) [none, none, none]).2 = (onHandLost s).2 := by
  obtain ⟨h1, h2, h3, h4, h5, h6, h7, -, -⟩ := onHandLost_spec s
  refine ⟨h1, h2, h3, h4, h5, h6, h7, ?_, ?_, ?_⟩
  · rw [h7]
    by_cases hd : s.is_dragging = true
    · rw [if_pos hd]; rfl
    · rw [if_neg hd]
      simpa using hd
  · rfl
  · show List.nil ++ (List.nil ++ ((onHandLost s).2 ++ List.nil)) = (onHandLost s).2
    simp

/-- C8: a scroll action emitted in any single frame has integer amount
of absolute value at most 15, is never zero, and is emitted only when
the frame's scaled palm delta magnitude exceeds 0.2. -/
theorem C8_bounded_scroll (cfg : Config) (s : CState) (f : Frame) (n : ℤ)
    (h : Action.scroll n ∈ (process cfg s f).2) :
    |n| ≤ 15 ∧ n ≠ 0 ∧
    1/5 < |(palmAvgY f - s.last_scroll_y) * cfg.SCROLL_SENSITIVITY| := by
  obtain ⟨hn, hm⟩ := process_scroll_mem cfg s f n h
  refine ⟨?_, ?_, hm⟩
  · rw [hn, abs_le]
    exact ⟨le_max_left _ _, max_le (by norm_num) (min_le_left _ _)⟩
  · rcases lt_abs.mp hm with hpos | hneg
    · have hv : -((palmAvgY f - s.last_scroll_y) * cfg.SCROLL_SENSITIVITY) * 5 < -1 := by
        nlinarith
      have hv0 : ¬ (0 : ℚ) ≤ -((palmAvgY f - s.last_scroll_y) * cfg.SCROLL_SENSITIVITY) * 5 := by
        intro hc; nlinarith
      have hceil : pyInt (-((palmAvgY f - s.last_scroll_y) * cfg.SCROLL_SENSITIVITY) * 5) ≤ -1 := by
        rw [pyInt, if_neg hv0]
        exact Int.ceil_le.mpr (by exact_mod_cast hv.le)
      have hmin : min 15 (pyInt (-((palmAvgY f - s.last_scroll_y) * cfg.SCROLL_SENSITIVITY) * 5)) ≤ -1 :=
        le_trans (min_le_right _ _) hceil
      have : n ≤ -1 := by
        rw [hn]
        exact max_le (by norm_num) hmin
      omega
    · have hv : (1 : ℚ) < -((palmAvgY f - s.last_scroll_y) * cfg.SCROLL_SENSITIVITY) * 5 := by
        nlinarith
      have hv0 : (0 : ℚ) ≤ -((palmAvgY f - s.last_scroll_y) * cfg.SCROLL_SENSITIVITY) * 5 := by
        nlinarith
      have hfl : 1 ≤ pyInt (-((palmAvgY f - s.last_scroll_y) * cfg.SCROLL_SENSITIVITY) * 5) := by
        rw [pyInt, if_pos hv0]
        exact Int.le_floor.mpr (by exact_mod_cast hv.le)
      have hmin : 1 ≤ min 15 (pyInt (-((palmAvgY f - s.last_scroll_y) * cfg.SCROLL_SENSITIVITY) * 5)) :=
        le_min (by norm_num) hfl
      have : 1 ≤ n := by
        rw [hn]
        exact le_trans hmin (le_max_right _ _)
      omega

/-- Unfolding of process through the named stage helpers. -/
theorem process_unfold (cfg : Config) (s : CState) (f : Frame) :
    process cfg s f =
      (pinchSection cfg (smState cfg s f) f).elim
        (fun r => (r.1, smMove cfg s f :: r.2)) (fun s2 =>
        (fistSection cfg s2 f).elim
          (fun r => (r.1, smMove cfg s f :: r.2)) (fun s3 =>
          (scrollSection cfg s3 f).elim
            (fun r => (r.1, smMove cfg s f :: r.2)) (fun s4 =>
            (defaultSection cfg s4 f, [smMove cfg s f])))) := rfl

/-- The cursor-move stage does not touch the interaction fields. -/
theorem smState_fields (cfg : Config) (s : CState) (f : Frame) :
    (smState cfg s f).is_pinching = s.is_pinching ∧
    (smState cfg s f).is_dragging = s.is_dragging ∧
    (smState cfg s f).is_scrolling = s.is_scrolling ∧
    (smState cfg s f).scroll_frames = s.scroll_frames ∧
    (smState cfg s f).last_scroll_y = s.last_scroll_y ∧
    (smState cfg s f).pinch_start_time = s.pinch_start_time ∧
    (smState cfg s f).last_click_time = s.last_click_time ∧
    (smState cfg s f).last_right_click_time = s.last_right_click_time ∧
    (smState cfg s f).last_single_click_time = s.last_single_click_time := by
  obtain ⟨a, b, hs, -⟩ := smoothMove_shape cfg s (mapped cfg f).1 (mapped cfg f).2
  rw [smState, hs]
  exact ⟨rfl, rfl, rfl, rfl, rfl, rfl, rfl, rfl, rfl⟩

/-- When no hysteresis edge fires (pinch open, distance not below
PINCH_CLOSE) the pinch section falls through unchanged. -/
theorem pinchSection_noEdge {cfg : Config} {s : CState} {f : Frame}
    (h1 : s.is_pinching = false) (h2 : ¬ f.pinchDist < cfg.PINCH_CLOSE) :
    pinchSection cfg s f = Sum.inr s := by
  simp only [pinchSection]
  rw [if_neg (by simp [h2]), if_neg (by simp [h1])]

/-- With no fist and no running drag the fist section falls through
unchanged. -/
theorem fistSection_skip {cfg : Config} {s : CState} {f : Frame}
    (h1 : ¬ allCurled f.fingers) (h2 : s.is_dragging = false) :
    fistSection cfg s f = Sum.inr s := by
  simp only [fistSection]
  rw [if_neg h1, if_neg (by simp [h2])]

/-- Open palm and all-curled are mutually exclusive. -/
theorem openPalm_not_allCurled {fg : Fingers} (h : openPalm fg) :
    ¬ allCurled fg := by
  intro hc
  have h1 := h.1
  have h2 := hc.1
  omega

/-- Entering scroll mode: first open-palm frame records the palm origin,
emits nothing. -/
theorem scrollSection_enter {cfg : Config} {s : CState} {f : Frame}
    (h1 : openPalm f.fingers) (h2 : s.is_scrolling = false) :
    ∃ s2, scrollSection cfg s f = Sum.inl (s2, []) ∧
      s2.is_scrolling = true ∧ s2.scroll_frames = 0 ∧
      s2.last_scroll_y = palmAvgY f ∧
      s2.is_pinching = s.is_pinching ∧ s2.is_dragging = s.is_dragging := by
  have he : scrollSection cfg s f = Sum.inl ((confirmGesture cfg
      { s with
        is_scrolling := true
        scroll_origin_y := palmAvgY f
        last_scroll_y := palmAvgY f
        scroll_frames := 0
        gesture_text := "Scroll Ready" } Gesture.scroll).1, []) := by
    simp only [scrollSection]
    rw [if_pos h1, if_pos h2]
  refine ⟨_, he, ?_, ?_, ?_, ?_, ?_⟩
  · rw [(confirmGesture_preserve ..).2.2.1]
  · rw [(confirmGesture_preserve ..).2.2.2.1]
  · rw [(confirmGesture_preserve ..).2.2.2.2.1]
  · rw [(confirmGesture_preserve ..).2.1]
  · rw [(confirmGesture_preserve ..).1]

/-- Stabilizing scroll frames: open palm while the counter has not yet
reached 3 increments it and emits nothing; the palm anchor is not
updated. -/
theorem scrollSection_warm {cfg : Config} {s : CState} {f : Frame}
    (h1 : openPalm f.fingers) (h2 : s.is_scrolling = true)
    (h3 : ¬ 3 ≤ s.scroll_frames + 1) :
    ∃ s2, scrollSection cfg s f = Sum.inl (s2, []) ∧
      s2.is_scrolling = true ∧ s2.scroll_frames = s.scroll_frames + 1 ∧
      s2.last_scroll_y = s.last_scroll_y ∧
      s2.is_pinching = s.is_pinching ∧ s2.is_dragging = s.is_dragging := by
  have he : scrollSection cfg s f = Sum.inl ((confirmGesture cfg
      { s with scroll_frames := s.scroll_frames + 1 } Gesture.scroll).1, []) := by
    simp only [scrollSection]
    rw [if_pos h1, if_neg (by simp [h2]), if_neg h3]
  refine ⟨_, he, ?_, ?_, ?_, ?_, ?_⟩
  · rw [(confirmGesture_preserve ..).2.2.1]; exact h2
  · rw [(confirmGesture_preserve ..).2.2.2.1]
  · rw [(confirmGesture_preserve ..).2.2.2.2.1]
  · rw [(confirmGesture_preserve ..).2.1]
  · rw [(confirmGesture_preserve ..).1]

/-- Confirmed scroll emission: from the third consecutive open-palm
frame on, a delta whose magnitude passes 0.2 emits the clamped scroll
and re-anchors the palm position. -/
theorem scrollSection_emit {cfg : Config} {s : CState} {f : Frame}
    (h1 : openPalm f.fingers) (h2 : s.is_scrolling = true)
    (h3 : 3 ≤ s.scroll_frames + 1)
    (h4 : 1/5 < |(palmAvgY f - s.last_scroll_y) * cfg.SCROLL_SENSITIVITY|) :
    ∃ s2, scrollSection cfg s f = Sum.inl (s2, [Action.scroll (max (-15) (min 15
        (pyInt (-((palmAvgY f - s.last_scroll_y) * cfg.SCROLL_SENSITIVITY) * 5))))]) ∧
      s2.is_scrolling = true ∧ s2.scroll_frames = s.scroll_frames + 1 ∧
      s2.last_scroll_y = palmAvgY f ∧
      s2.is_pinching = s.is_pinching ∧ s2.is_dragging = s.is_dragging := by
  have he : scrollSection cfg s f = Sum.inl ((confirmGesture cfg
      { s with
        scroll_frames := s.scroll_frames + 1
        last_scroll_y := palmAvgY f
        gesture_text := "Scroll"
        total_scrolls := s.total_scrolls + 1 } Gesture.scroll).1,
      [Action.scroll (max (-15) (min 15
        (pyInt (-((palmAvgY f - s.last_scroll_y) * cfg.SCROLL_SENSITIVITY) * 5))))]) := by
    simp only [scrollSection]
    rw [if_pos h1, if_neg (by simp [h2]), if_pos h3, if_pos h4]
  refine ⟨_, he, ?_, ?_, ?_, ?_, ?_⟩
  · rw [(confirmGesture_preserve ..).2.2.1]; exact h2
  · rw [(confirmGesture_preserve ..).2.2.2.1]
  · rw [(confirmGesture_preserve ..).2.2.2.2.1]
  · rw [(confirmGesture_preserve ..).2.1]
  · rw [(confirmGesture_preserve ..).1]

/-- Composition of a frame in which the pinch and fist sections fall
through with the state unchanged and the scroll section returns. -/
theorem process_via_scroll {cfg : Config} {s : CState} {f : Frame}
    {r : CState × List Action}
    (hp : pinchSection cfg (smState cfg s f) f = Sum.inr (smState cfg s f))
    (hf : fistSection cfg (smState cfg s f) f = Sum.inr (smState cfg s f))
    (hs : scrollSection cfg (smState cfg s f) f = Sum.inl r) :
    process cfg s f = (r.1, smMove cfg s f :: r.2) := by
  rw [process_unfold, hp, Sum.elim_inr, hf, Sum.elim_inr, hs, Sum.elim_inl]

/-- A clamped scroll amount computed from a positive delta beyond the
threshold is at most -1 (scrolls downward). -/
theorem scrollAmount_neg {d : ℚ} (h : 1/5 < d) :
    max (-15) (min 15 (pyInt (-d * 5))) ≤ -1 := by
  have hv : -d * 5 < -1 := by nlinarith
  have hv0 : ¬ (0 : ℚ) ≤ -d * 5 := by intro hc; nlinarith
  have hceil : pyInt (-d * 5) ≤ -1 := by
    rw [pyInt, if_neg hv0]
    exact Int.ceil_le.mpr (by exact_mod_cast hv.le)
  exact max_le (by norm_num) (le_trans (min_le_right _ _) hceil)

/-- C7: over 5 consecutive open-palm frames with the palm average y
rising by at least 0.01 per frame, starting from a state with scroll
mode off and no pinch or drag (and no frame closing a pinch), no scroll
action is emitted on frames 1-3, and frames 4 and 5 each emit a scroll
action with negative amount — the sign pyautogui scrolls downward on. -/
theorem C7_scroll_stabilization (w h : ℚ) (F : ℕ → Frame) (s0 : CState)
    (hop : ∀ i, openPalm (F i).fingers)
    (hpd : ∀ i, ¬ (F i).pinchDist < (srcConfig w h).PINCH_CLOSE)
    (hpinch : s0.is_pinching = false)
    (hdrag : s0.is_dragging = false)
    (hscroll : s0.is_scrolling = false)
    (hy : ∀ i, i < 4 → 1/100 ≤ palmAvgY (F (i+1)) - palmAvgY (F i)) :
    (∀ n : ℤ, Action.scroll n ∉ (process (srcConfig w h) s0 (F 0)).2) ∧
    (∀ n : ℤ, Action.scroll n ∉ (process (srcConfig w h)
        (process (srcConfig w h) s0 (F 0)).1 (F 1)).2) ∧
    (∀ n : ℤ, Action.scroll n ∉ (process (srcConfig w h)
        (process (srcConfig w h)
          (process (srcConfig w h) s0 (F 0)).1 (F 1)).1 (F 2)).2) ∧
    (∃ n : ℤ, n < 0 ∧ Action.scroll n ∈ (process (srcConfig w h)
        (process (srcConfig w h)
          (process (srcConfig w h)
            (process (srcConfig w h) s0 (F 0)).1 (F 1)).1 (F 2)).1 (F 3)).2) ∧
    (∃ n : ℤ, n < 0 ∧ Action.scroll n ∈ (process (srcConfig w h)
        (process (srcConfig w h)
          (process (srcConfig w h)
            (process (srcConfig w h)
              (process (srcConfig w h) s0 (F 0)).1 (F 1)).1 (F 2)).1 (F 3)).1 (F 4)).2) := by
  set cfg := srcConfig w h with hcfg
  have hsens : cfg.SCROLL_SENSITIVITY = 50 := rfl
  -- frame 1: enter scroll mode
  have m0 := smState_fields cfg s0 (F 0)
  have hp0 := pinchSection_noEdge (m0.1.trans hpinch) (hpd 0)
  have hf0 := @fistSection_skip cfg _ _ (openPalm_not_allCurled (hop 0)) (m0.2.1.trans hdrag)
  obtain ⟨t1, hs0, t1scr, t1fr, t1last, t1pin, t1drag⟩ :=
    @scrollSection_enter cfg _ _ (hop 0) (m0.2.2.1.trans hscroll)
  have hr1 := process_via_scroll hp0 hf0 hs0
  have t1pin2 : t1.is_pinching = false := t1pin.trans (m0.1.trans hpinch)
  have t1drag2 : t1.is_dragging = false := t1drag.trans (m0.2.1.trans hdrag)
  have t1last2 : t1.last_scroll_y = palmAvgY (F 0) := t1last
  -- frame 2: stabilizing
  have m1 := smState_fields cfg t1 (F 1)
  have hp1 := pinchSection_noEdge (m1.1.trans t1pin2) (hpd 1)
  have hf1 := @fistSection_skip cfg _ _ (openPalm_not_allCurled (hop 1)) (m1.2.1.trans t1drag2)
  obtain ⟨t2, hs1, t2scr, t2fr, t2last, t2pin, t2drag⟩ :=
    @scrollSection_warm cfg _ _ (hop 1) (m1.2.2.1.trans t1scr)
      (by rw [m1.2.2.2.1, t1fr] <;> omega)
  have hr2 := process_via_scroll hp1 hf1 hs1
  have t2pin2 : t2.is_pinching = false := t2pin.trans (m1.1.trans t1pin2)
  have t2drag2 : t2.is_dragging = false := t2drag.trans (m1.2.1.trans t1drag2)
  have t2fr2 : t2.scroll_frames = 1 := by rw [t2fr, m1.2.2.2.1, t1fr]
  have t2last2 : t2.last_scroll_y = palmAvgY (F 0) := by
    rw [t2last, m1.2.2.2.2.1, t1last2]
  -- frame 3: stabilizing
  have m2 := smState_fields cfg t2 (F 2)
  have hp2 := pinchSection_noEdge (m2.1.trans t2pin2) (hpd 2)
  have hf2 := @fistSection_skip cfg _ _ (openPalm_not_allCurled (hop 2)) (m2.2.1.trans t2drag2)
  obtain ⟨t3, hs2, t3scr, t3fr, t3last, t3pin, t3drag⟩ :=
    @scrollSection_warm cfg _ _ (hop 2) (m2.2.2.1.trans t2scr)
      (by rw [m2.2.2.2.1, t2fr2] <;> omega)
  have hr3 := process_via_scroll hp2 hf2 hs2
  have t3pin2 : t3.is_pinching = false := t3pin.trans (m2.1.trans t2pin2)
  have t3drag2 : t3.is_dragging = false := t3drag.trans (m2.2.1.trans t2drag2)
  have t3fr2 : t3.scroll_frames = 2 := by rw [t3fr, m2.2.2.2.1, t2fr2]
  have t3last2 : t3.last_scroll_y = palmAvgY (F 0) := by
    rw [t3last, m2.2.2.2.2.1, t2last2]
  -- frame 4: emit downward scroll
  have m3 := smState_fields cfg t3 (F 3)
  have hlast3 : (smState cfg t3 (F 3)).last_scroll_y = palmAvgY (F 0) :=
    m3.2.2.2.2.1.trans t3last2
  have hdelta4 : 1/5 < (palmAvgY (F 3) - palmAvgY (F 0)) * 50 := by
    have a0 : 1/100 ≤ palmAvgY (F 1) - palmAvgY (F 0) := hy 0 (by omega)
    have a1 : 1/100 ≤ palmAvgY (F 2) - palmAvgY (F 1) := hy 1 (by omega)
    have a2 : 1/100 ≤ palmAvgY (F 3) - palmAvgY (F 2) := hy 2 (by omega)
    linarith
  have hp3 := pinchSection_noEdge (m3.1.trans t3pin2) (hpd 3)
  have hf3 := @fistSection_skip cfg _ _ (openPalm_not_allCurled (hop 3)) (m3.2.1.trans t3drag2)
  obtain ⟨t4, hs3, t4scr, t4fr, t4last, t4pin, t4drag⟩ :=
    @scrollSection_emit cfg _ _ (hop 3) (m3.2.2.1.trans t3scr)
      (by rw [m3.2.2.2.1, t3fr2] <;> omega)
      (by rw [hlast3, hsens]; exact lt_of_lt_of_le hdelta4 (le_abs_self _))
  rw [hlast3, hsens] at hs3
  have hr4 := process_via_scroll hp3 hf3 hs3
  have t4pin2 : t4.is_pinching = false := t4pin.trans (m3.1.trans t3pin2)
  have t4drag2 : t4.is_dragging = false := t4drag.trans (m3.2.1.trans t3drag2)
  have t4fr2 : t4.scroll_frames = 3 := by rw [t4fr, m3.2.2.2.1, t3fr2]
  have t4last2 : t4.last_scroll_y = palmAvgY (F 3) := t4last
  -- frame 5: emit downward scroll again
  have m4 := smState_fields cfg t4 (F 4)
  have hlast4 : (smState cfg t4 (F 4)).last_scroll_y = palmAvgY (F 3) :=
    m4.2.2.2.2.1.trans t4last2
  have hdelta5 : 1/5 < (palmAvgY (F 4) - palmAvgY (F 3)) * 50 := by
    have a3 : 1/100 ≤ palmAvgY (F 4) - palmAvgY (F 3) := hy 3 (by omega)
    linarith
  have hp4 := pinchSection_noEdge (m4.1.trans t4pin2) (hpd 4)
  have hf4 := @fistSection_skip cfg _ _ (openPalm_not_allCurled (hop 4)) (m4.2.1.trans t4drag2)
  obtain ⟨t5, hs4, -, -, -, -, -⟩ :=
    @scrollSection_emit cfg _ _ (hop 4) (m4.2.2.1.trans t4scr)
      (by rw [m4.2.2.2.1, t4fr2] <;> omega)
      (by rw [hlast4, hsens]; exact lt_of_lt_of_le hdelta5 (le_abs_self _))
  rw [hlast4, hsens] at hs4
  have hr5 := process_via_scroll hp4 hf4 hs4
  -- conclusions
  refine ⟨?_, ?_, ?_, ?_, ?_⟩
  · intro n
    rw [hr1]
    simp [smMove]
  · intro n
    rw [hr1, hr2]
    simp [smMove]
  · intro n
    rw [hr1, hr2, hr3]
    simp [smMove]
  · rw [hr1, hr2, hr3, hr4]
    refine ⟨max (-15) (min 15 (pyInt (-((palmAvgY (F 3) - palmAvgY (F 0)) * 50) * 5))), ?_, ?_⟩
    · have := scrollAmount_neg hdelta4
      omega
    · simp
  · rw [hr1, hr2, hr3, hr4, hr5]
    refine ⟨max (-15) (min 15 (pyInt (-((palmAvgY (F 4) - palmAvgY (F 3)) * 50) * 5))), ?_, ?_⟩
    · have := scrollAmount_neg hdelta5
      omega
    · simp

/-- Witness for C7: concrete steadily-rising open-palm frames satisfy
the scenario hypotheses, and the theorem yields the downward scroll on
frame 4. -/
theorem C7_scroll_stabilization_witness :
    (∀ i : ℕ, 1/100 ≤ palmAvgY (wPalmFrames (i+1)) - palmAvgY (wPalmFrames i)) ∧
    (∃ n : ℤ, n < 0 ∧ Action.scroll n ∈ (process (srcConfig 1920 1080)
      (process (srcConfig 1920 1080)
        (process (srcConfig 1920 1080)
          (process (srcConfig 1920 1080) (initState (srcConfig 1920 1080))
            (wPalmFrames 0)).1 (wPalmFrames 1)).1 (wPalmFrames 2)).1
      (wPalmFrames 3)).2) := by
  have hpalm : ∀ j : ℕ, palmAvgY (wPalmFrames j) = (j : ℚ)/100 := by
    intro j
    simp only [palmAvgY, wPalmFrames]
    ring
  have hy : ∀ i : ℕ, 1/100 ≤ palmAvgY (wPalmFrames (i+1)) - palmAvgY (wPalmFrames i) := by
    intro i
    rw [hpalm, hpalm]
    push_cast
    linarith
  refine ⟨hy, ?_⟩
  exact (C7_scroll_stabilization 1920 1080 wPalmFrames (initState (srcConfig 1920 1080))
    (fun i => show openPalm (⟨true, true, true, true, true⟩ : Fingers) by decide)
    (fun i => by norm_num [wPalmFrames, srcConfig])
    rfl rfl rfl
    (fun i _ => hy i)).2.2.2.1

/-- The open edge of the pinch hysteresis, written with the state
updates collapsed: used to classify the release. -/
theorem pinchSection_openEdge {cfg : Config} {s : CState} {f : Frame}
    (h1 : s.is_pinching = true) (h2 : cfg.PINCH_OPEN < f.pinchDist) :
    pinchSection cfg s f =
      (if f.now - s.pinch_start_time < 9/20 ∧
          cfg.CLICK_COOLDOWN < f.now - s.last_click_time then
        if s.is_dragging = true then
          Sum.inl ({ s with
            is_pinching := false
            last_click_time := f.now
            is_dragging := false
            gesture_text := "Released" }, [Action.mouseUp])
        else if peace f.fingers then
          if cfg.CLICK_COOLDOWN < f.now - s.last_right_click_time then
            Sum.inl ({ s with
              is_pinching := false
              last_click_time := f.now
              last_right_click_time := f.now
              gesture_text := "Right Click!"
              total_clicks := s.total_clicks + 1 }, [Action.rightClick])
          else
            Sum.inr { s with is_pinching := false, last_click_time := f.now }
        else if f.now - s.last_single_click_time < cfg.DOUBLE_CLICK_WINDOW then
          Sum.inl ({ s with
            is_pinching := false
            last_click_time := f.now
            last_single_click_time := 0
            gesture_text := "Double Click!"
            total_clicks := s.total_clicks + 1 }, [Action.doubleClick])
        else
          Sum.inl ({ s with
            is_pinching := false
            last_click_time := f.now
            last_single_click_time := f.now
            gesture_text := "Click!"
            total_clicks := s.total_clicks + 1 }, [Action.click])
      else Sum.inr { s with is_pinching := false }) := by
  simp only [pinchSection]
  rw [if_neg (by simp [h1]), if_pos ⟨h1, h2⟩]

/-- Composition of a frame whose pinch section returns early. -/
theorem process_via_pinch {cfg : Config} {s : CState} {f : Frame}
    {r : CState × List Action}
    (hp : pinchSection cfg (smState cfg s f) f = Sum.inl r) :
    process cfg s f = (r.1, smMove cfg s f :: r.2) := by
  rw [process_unfold, hp, Sum.elim_inl]

/-- When the pinch section falls through, the rest of the frame emits no
click-family action (only button press/release, scroll, and the cursor
move exist downstream). -/
theorem process_noClick_of_inr {cfg : Config} {s : CState} {f : Frame}
    {s2 : CState}
    (hp : pinchSection cfg (smState cfg s f) f = Sum.inr s2) :
    List.countP clickFamily (process cfg s f).2 = 0 := by
  rw [process_unfold, hp, Sum.elim_inr]
  cases hf : fistSection cfg s2 f with
  | inl r =>
    rw [Sum.elim_inl]
    obtain ⟨-, -, -, -, -, -, hact⟩ := fistSection_inl hf
    rcases hact with ⟨he, -, -⟩ | ⟨he, -⟩ | ⟨he, -, -⟩ <;> rw [he] <;>
      simp [List.countP_cons, clickFamily, smMove]
  | inr s3 =>
    rw [Sum.elim_inr]
    cases hsc : scrollSection cfg s3 f with
    | inl r =>
      rw [Sum.elim_inl]
      obtain ⟨-, -, -, -, hact⟩ := scrollSection_inl hsc
      rcases hact with he | ⟨he, -⟩ <;> rw [he] <;>
        simp [List.countP_cons, clickFamily, smMove]
    | inr s4 =>
      rw [Sum.elim_inr]
      simp [List.countP_cons, clickFamily, smMove]

/-- C4: classification of a pinch release (a frame whose distance rises
above PINCH_OPEN while the pinch is closed), with the source constants:
when the hold is under 0.45s and the 0.35s inter-click cooldown has
elapsed, exactly one branch runs in priority order — drag release (no
click), right click if peace holds (subject to its own cooldown,
otherwise nothing click-like is emitted), double click if a single click
fell inside the 0.35s window (clearing the single-click memory), else a
single click (recording it); when the hold is 0.45s or more, no
click-family action is emitted on the release. -/
theorem C4_pinch_release_classification (w h : ℚ) (s : CState) (f : Frame)
    (hp : s.is_pinching = true)
    (hd : (srcConfig w h).PINCH_OPEN < f.pinchDist) :
    (f.now - s.pinch_start_time < 9/20 →
      7/20 < f.now - s.last_click_time →
      ((s.is_dragging = true →
          List.countP clickFamily (process (srcConfig w h) s f).2 = 0 ∧
          Action.mouseUp ∈ (process (srcConfig w h) s f).2 ∧
          (process (srcConfig w h) s f).1.is_dragging = false) ∧
       (s.is_dragging = false → peace f.fingers →
          ((7/20 < f.now - s.last_right_click_time →
             List.countP clickFamily (process (srcConfig w h) s f).2 = 1 ∧
             Action.rightClick ∈ (process (srcConfig w h) s f).2) ∧
           (¬ 7/20 < f.now - s.last_right_click_time →
             List.countP clickFamily (process (srcConfig w h) s f).2 = 0))) ∧
       (s.is_dragging = false → ¬ peace f.fingers →
          ((f.now - s.last_single_click_time < 7/20 →
             List.countP clickFamily (process (srcConfig w h) s f).2 = 1 ∧
             Action.doubleClick ∈ (process (srcConfig w h) s f).2 ∧
             (process (srcConfig w h) s f).1.last_single_click_time = 0) ∧
           (¬ f.now - s.last_single_click_time < 7/20 →
             List.countP clickFamily (process (srcConfig w h) s f).2 = 1 ∧
             Action.click ∈ (process (srcConfig w h) s f).2 ∧
             (process (srcConfig w h) s f).1.last_single_click_time = f.now))))) ∧
    (9/20 ≤ f.now - s.pinch_start_time →
      List.countP clickFamily (process (srcConfig w h) s f).2 = 0) := by
  set cfg := srcConfig w h with hcfg
  have hfl := smState_fields cfg s f
  have hcc : cfg.CLICK_COOLDOWN = 7/20 := rfl
  have hdw : cfg.DOUBLE_CLICK_WINDOW = 7/20 := rfl
  have hedge := pinchSection_openEdge (s := smState cfg s f) (f := f)
    (hfl.1.trans hp) hd
  rw [hfl.2.1, hfl.2.2.2.2.2.1, hfl.2.2.2.2.2.2.1, hfl.2.2.2.2.2.2.2.1,
    hfl.2.2.2.2.2.2.2.2, hcc, hdw] at hedge
  constructor
  · intro hh hcl
    rw [if_pos ⟨hh, hcl⟩] at hedge
    refine ⟨?_, ?_, ?_⟩
    · intro hdr
      rw [if_pos hdr] at hedge
      rw [process_via_pinch hedge]
      refine ⟨?_, ?_, rfl⟩
      · simp [List.countP_cons, clickFamily, smMove]
      · simp
    · intro hdr hpe
      rw [if_neg (by simp [hdr]), if_pos hpe] at hedge
      refine ⟨?_, ?_⟩
      · intro hrc
        rw [if_pos hrc] at hedge
        rw [process_via_pinch hedge]
        exact ⟨by simp [List.countP_cons, clickFamily, smMove], by simp⟩
      · intro hrc
        rw [if_neg hrc] at hedge
        exact process_noClick_of_inr hedge
    · intro hdr hpe
      rw [if_neg (by simp [hdr]), if_neg hpe] at hedge
      refine ⟨?_, ?_⟩
      · intro hw
        rw [if_pos hw] at hedge
        rw [process_via_pinch hedge]
        exact ⟨by simp [List.countP_cons, clickFamily, smMove], by simp, rfl⟩
      · intro hw
        rw [if_neg hw] at hedge
        rw [process_via_pinch hedge]
        exact ⟨by simp [List.countP_cons, clickFamily, smMove], by simp, rfl⟩
  · intro h9
    rw [if_neg (fun hc => absurd hc.1 (not_lt.mpr h9))] at hedge
    exact process_noClick_of_inr hedge

/-- Witness for C4: a concrete release 0.3s into the pinch, 0.2s after a
recorded single click, yields the double click and clears the
single-click memory. -/
theorem C4_pinch_release_classification_witness :
    wPinchState.is_pinching = true ∧
    (srcConfig 1920 1080).PINCH_OPEN < wPinchFrame.pinchDist ∧
    Action.doubleClick ∈ (process (srcConfig 1920 1080) wPinchState wPinchFrame).2 ∧
    (process (srcConfig 1920 1080) wPinchState wPinchFrame).1.last_single_click_time = 0 := by
  have hd : (srcConfig 1920 1080).PINCH_OPEN < wPinchFrame.pinchDist := by
    norm_num [srcConfig, wPinchFrame]
  have h := (C4_pinch_release_classification 1920 1080 wPinchState wPinchFrame rfl hd).1
    (by norm_num [wPinchState, wPinchFrame, initState, srcConfig])
    (by norm_num [wPinchState, wPinchFrame, initState, srcConfig])
  have h3 := (h.2.2 rfl (by decide)).1
    (by norm_num [wPinchState, wPinchFrame, initState, srcConfig])
  exact ⟨rfl, hd, h3.2.1, h3.2.2⟩

/-- Witness for C8: a concrete emitting frame; the amount is clamped,
nonzero, and the delta magnitude exceeded the threshold. -/
theorem C8_bounded_scroll_witness :
    ∃ n : ℤ, Action.scroll n ∈ (process (srcConfig 1920 1080) wScrollState
        (wPalmFrames 50)).2 ∧
      |n| ≤ 15 ∧ n ≠ 0 := by
  set cfg := srcConfig 1920 1080 with hcfg
  have m := smState_fields cfg wScrollState (wPalmFrames 50)
  have hp := pinchSection_noEdge (m.1.trans rfl)
    (show ¬ (wPalmFrames 50).pinchDist < cfg.PINCH_CLOSE by
      norm_num [wPalmFrames, hcfg, srcConfig])
  have hop : openPalm (wPalmFrames 50).fingers :=
    show openPalm (⟨true, true, true, true, true⟩ : Fingers) by decide
  have hf := @fistSection_skip cfg _ _ (openPalm_not_allCurled hop) (m.2.1.trans rfl)
  have hpalm : palmAvgY (wPalmFrames 50) = 1/2 := by
    simp only [palmAvgY, wPalmFrames]
    norm_num
  obtain ⟨t, hs, -, -, -, -, -⟩ := @scrollSection_emit cfg _ _ hop
    (m.2.2.1.trans rfl)
    (by rw [m.2.2.2.1]; norm_num [wScrollState])
    (by rw [m.2.2.2.2.1, hpalm]; norm_num [wScrollState, initState, hcfg, srcConfig])
  have hpr := process_via_scroll hp hf hs
  refine ⟨max (-15) (min 15 (pyInt (-((palmAvgY (wPalmFrames 50) -
    (smState cfg wScrollState (wPalmFrames 50)).last_scroll_y) *
    cfg.SCROLL_SENSITIVITY) * 5))), ?_, ?_, ?_⟩
  · rw [hpr]
    simp
  · exact (C8_bounded_scroll cfg wScrollState (wPalmFrames 50) _ (by rw [hpr]; simp)).1
  · exact (C8_bounded_scroll cfg wScrollState (wPalmFrames 50) _ (by rw [hpr]; simp)).2.1

/-- Any element within the last n entries of a list survives dropping
all but the last n entries. -/
theorem mem_drop_lastN {α : Type} (A B : List α) (x : α) (n : ℕ)
    (h : B.length + 1 ≤ n) :
    x ∈ (A ++ x :: B).drop ((A ++ x :: B).length - n) := by
  have hlen : (A ++ x :: B).length = A.length + B.length + 1 := by
    simp [List.length_append]
    omega
  have hK : (A ++ x :: B).length - n ≤ A.length := by omega
  rw [List.drop_append_of_le_length hK]
  exact List.mem_append_right _ (List.mem_cons_self x B)

/-- A label equal to the currently confirmed one is confirmed
immediately, leaving the confirmed label unchanged. -/
theorem confirm_same (cfg : Config) (s : CState) :
    (confirmGesture cfg s s.current_confirmed_gesture).2 = true ∧
    (confirmGesture cfg s s.current_confirmed_gesture).1.current_confirmed_gesture =
      s.current_confirmed_gesture := by
  simp [confirmGesture]

/-- One confirmation step on a new candidate g fails, and keeps the
confirmed label, whenever a different label x still sits within the
lookback window: history of the form v ++ x :: w with w shorter than the
required count minus one.  The history keeps the same form with g
appended. -/
theorem confirm_stays {cfg : Config} {s : CState} {g x : Gesture}
    {v w : List Gesture}
    (hne : ¬ g = s.current_confirmed_gesture)
    (hshape : s.gesture_history = v ++ x :: w)
    (hx : ¬ x = g)
    (hlen : w.length + 2 ≤ (if g = Gesture.fist then cfg.FIST_CONFIRM else cfg.CONFIRM_FRAMES))
    (hcap : (if g = Gesture.fist then cfg.FIST_CONFIRM else cfg.CONFIRM_FRAMES) ≤ 8) :
    (confirmGesture cfg s g).2 = false ∧
    (confirmGesture cfg s g).1.current_confirmed_gesture = s.current_confirmed_gesture ∧
    ∃ v2, (confirmGesture cfg s g).1.gesture_history = v2 ++ x :: (w ++ [g]) := by
  have hl : s.gesture_history.length = v.length + w.length + 1 := by
    rw [hshape]
    simp [List.length_append]
    omega
  have hu : s.gesture_history ++ [g] = v ++ x :: (w ++ [g]) := by
    rw [hshape]
    simp
  simp only [confirmGesture]
  rw [if_neg hne]
  generalize hneed : (if g = Gesture.fist then cfg.FIST_CONFIRM else cfg.CONFIRM_FRAMES) = needed at hlen hcap ⊢
  have hD : s.gesture_history.length + 1 - 8 ≤ v.length := by omega
  have hhist : dequeAppend 8 s.gesture_history g =
      v.drop (s.gesture_history.length + 1 - 8) ++ x :: (w ++ [g]) := by
    rw [dequeAppend, hu, List.drop_append_of_le_length hD]
  have hmem : x ∈ (dequeAppend 8 s.gesture_history g).drop
      ((dequeAppend 8 s.gesture_history g).length - needed) := by
    rw [hhist]
    apply mem_drop_lastN
    simp only [List.length_append, List.length_cons, List.length_nil]
    omega
  have hall : ((dequeAppend 8 s.gesture_history g).drop
      ((dequeAppend 8 s.gesture_history g).length - needed)).all
      (fun y => decide (y = g)) = false := by
    cases hb : ((dequeAppend 8 s.gesture_history g).drop
        ((dequeAppend 8 s.gesture_history g).length - needed)).all
        (fun y => decide (y = g)) with
    | false => rfl
    | true =>
      exact absurd (of_decide_eq_true (List.all_eq_true.mp hb x hmem)) hx
  rw [if_neg (fun hc => by
    rw [hall] at hc
    exact Bool.noConfusion hc.2)]
  exact ⟨rfl, rfl, v.drop (s.gesture_history.length + 1 - 8), hhist⟩

/-- One confirmation step on a new candidate g fails by the length check
when the history is still too short; the history is extended by g. -/
theorem confirm_short {cfg : Config} {s : CState} {g : Gesture}
    (hne : ¬ g = s.current_confirmed_gesture)
    (hshort : s.gesture_history.length + 1 <
      (if g = Gesture.fist then cfg.FIST_CONFIRM else cfg.CONFIRM_FRAMES))
    (hcap : (if g = Gesture.fist then cfg.FIST_CONFIRM else cfg.CONFIRM_FRAMES) ≤ 8) :
    (confirmGesture cfg s g).2 = false ∧
    (confirmGesture cfg s g).1.current_confirmed_gesture = s.current_confirmed_gesture ∧
    (confirmGesture cfg s g).1.gesture_history = s.gesture_history ++ [g] := by
  simp only [confirmGesture]
  rw [if_neg hne]
  generalize hneed : (if g = Gesture.fist then cfg.FIST_CONFIRM else cfg.CONFIRM_FRAMES) = needed at hshort hcap ⊢
  have hz : s.gesture_history.length + 1 - 8 = 0 := by omega
  have hhist : dequeAppend 8 s.gesture_history g = s.gesture_history ++ [g] := by
    rw [dequeAppend, hz, List.drop_zero]
  rw [if_neg (fun hc => absurd hc.1 (by
    rw [List.length_drop, hhist]
    simp only [List.length_append, List.length_cons, List.length_nil]
    omega))]
  exact ⟨rfl, rfl, hhist⟩

/-- One confirmation step on g succeeds when the history already ends in
the required count minus one copies of g (or g is already confirmed),
and makes g the confirmed label. -/
theorem confirm_fires {cfg : Config} {s : CState} {g : Gesture}
    {v : List Gesture} {n : ℕ}
    (hshape : s.gesture_history = v ++ List.replicate n g)
    (hn : n + 1 = (if g = Gesture.fist then cfg.FIST_CONFIRM else cfg.CONFIRM_FRAMES))
    (hcap : n + 1 ≤ 8) :
    (confirmGesture cfg s g).2 = true ∧
    (confirmGesture cfg s g).1.current_confirmed_gesture = g := by
  by_cases hgc : g = s.current_confirmed_gesture
  · simp only [confirmGesture]
    rw [if_pos hgc]
    exact ⟨rfl, hgc.symm⟩
  · have hl : s.gesture_history.length = v.length + n := by
      rw [hshape]
      simp
    have hu : s.gesture_history ++ [g] = v ++ List.replicate (n+1) g := by
      rw [hshape]
      simp [List.replicate_succ', List.append_assoc]
    simp only [confirmGesture]
    rw [if_neg hgc]
    generalize hneed : (if g = Gesture.fist then cfg.FIST_CONFIRM else cfg.CONFIRM_FRAMES) = needed at hn ⊢
    rw [← hn]
    have hD : s.gesture_history.length + 1 - 8 ≤ v.length := by omega
    have hhist : dequeAppend 8 s.gesture_history g =
        v.drop (s.gesture_history.length + 1 - 8) ++ List.replicate (n+1) g := by
      rw [dequeAppend, hu, List.drop_append_of_le_length hD]
    have hidx : (dequeAppend 8 s.gesture_history g).length - (n+1) =
        (v.drop (s.gesture_history.length + 1 - 8)).length := by
      rw [hhist]
      simp only [List.length_append, List.length_drop, List.length_replicate]
      omega
    have hrec : (dequeAppend 8 s.gesture_history g).drop
        ((dequeAppend 8 s.gesture_history g).length - (n+1)) =
        List.replicate (n+1) g := by
      rw [hidx, hhist, List.drop_left]
    rw [if_pos ?cond]
    case cond =>
      constructor
      · rw [hrec]
        simp
      · rw [hrec]
        apply List.all_eq_true.mpr
        intro y hy
        exact decide_eq_true (List.eq_of_mem_replicate hy)
    exact ⟨rfl, rfl⟩

/-- Every confirmation step appends its candidate: a history ending in j
copies of g ends in j+1 copies after submitting g again. -/
theorem confirm_hist {cfg : Config} {s : CState} {g : Gesture}
    {v : List Gesture} {j : ℕ}
    (hshape : s.gesture_history = v ++ List.replicate j g)
    (hj : j + 1 ≤ 8) :
    ∃ v2, (confirmGesture cfg s g).1.gesture_history =
      v2 ++ List.replicate (j+1) g := by
  have hl : s.gesture_history.length = v.length + j := by
    rw [hshape]; simp
  have hu : s.gesture_history ++ [g] = v ++ List.replicate (j+1) g := by
    rw [hshape]
    simp [List.replicate_succ', List.append_assoc]
  have hD : s.gesture_history.length + 1 - 8 ≤ v.length := by omega
  have hhist : dequeAppend 8 s.gesture_history g =
      v.drop (s.gesture_history.length + 1 - 8) ++ List.replicate (j+1) g := by
    rw [dequeAppend, hu, List.drop_append_of_le_length hD]
  refine ⟨v.drop (s.gesture_history.length + 1 - 8), ?_⟩
  simp only [confirmGesture]
  split
  · exact hhist
  · split <;> split <;> exact hhist

/-- Unfolding of the iterated filter over an appended submission. -/
theorem confirmRun_concat (cfg : Config) (s : CState) (l : List Gesture)
    (g : Gesture) :
    confirmRun cfg s (l ++ [g]) =
      (confirmGesture cfg (confirmRun cfg s l) g).1 := by
  simp [confirmRun, List.foldl_append]

/-- C3: with the source counts (3 frames for fist, 2 otherwise), a
candidate g different from the confirmed label whose run starts fresh
(the previous history entry, if any, is not g) never becomes confirmed
from k-1 consecutive submissions followed by a different label — the
confirmed label is kept unchanged; k consecutive submissions of g
confirm it on the k-th call; and a label equal to the currently
confirmed one reports confirmed immediately without change. -/
theorem C3_gesture_confirmation (w h : ℚ) (s : CState) (g d : Gesture)
    (hne : ¬ g = s.current_confirmed_gesture)
    (hlast : ∀ x, s.gesture_history.getLast? = some x → ¬ x = g)
    (hd : ¬ d = g) :
    (confirmRun (srcConfig w h) s
        (List.replicate ((if g = Gesture.fist then 3 else 2) - 1) g ++ [d])).current_confirmed_gesture
      = s.current_confirmed_gesture ∧
    (confirmRun (srcConfig w h) s
        (List.replicate (if g = Gesture.fist then 3 else 2) g)).current_confirmed_gesture = g ∧
    (confirmGesture (srcConfig w h)
        (confirmRun (srcConfig w h) s
          (List.replicate ((if g = Gesture.fist then 3 else 2) - 1) g)) g).2 = true ∧
    (∀ s2 : CState,
      (confirmGesture (srcConfig w h) s2 s2.current_confirmed_gesture).2 = true ∧
      (confirmGesture (srcConfig w h) s2 s2.current_confirmed_gesture).1.current_confirmed_gesture
        = s2.current_confirmed_gesture) := by
  set cfg := srcConfig w h with hcfg
  have hkk : (if g = Gesture.fist then cfg.FIST_CONFIRM else cfg.CONFIRM_FRAMES) =
      (if g = Gesture.fist then 3 else 2) := by split <;> rfl
  have hkkd : (if d = Gesture.fist then cfg.FIST_CONFIRM else cfg.CONFIRM_FRAMES) =
      (if d = Gesture.fist then 3 else 2) := by split <;> rfl
  have hcapg : (if g = Gesture.fist then cfg.FIST_CONFIRM else cfg.CONFIRM_FRAMES) ≤ 8 := by
    rw [hkk]; split <;> omega
  have hcapd : (if d = Gesture.fist then cfg.FIST_CONFIRM else cfg.CONFIRM_FRAMES) ≤ 8 := by
    rw [hkkd]; split <;> omega
  have hlend : (0 : ℕ) + 2 ≤ (if d = Gesture.fist then cfg.FIST_CONFIRM else cfg.CONFIRM_FRAMES) := by
    rw [hkkd]; split <;> omega
  have hdg : ¬ Gesture.fist = d ∨ True := Or.inr trivial
  by_cases hgf : g = Gesture.fist
  · rw [if_pos hgf]
    -- submissions: g, g then d; and g, g, g
    rcases List.eq_nil_or_concat s.gesture_history with hnil | ⟨v, x, hvx⟩
    · -- empty history: both g-steps fail by the length check
      obtain ⟨-, c1, h1⟩ := @confirm_short cfg s g hne
        (by rw [hnil, hkk, if_pos hgf]; norm_num) hcapg
      have h1' : (confirmGesture cfg s g).1.gesture_history = [g] := by
        rw [h1, hnil] <;> rfl
      have hne1 : ¬ g = (confirmGesture cfg s g).1.current_confirmed_gesture := by
        rw [c1]; exact hne
      obtain ⟨-, c2, h2⟩ := @confirm_short cfg _ _ hne1
        (by rw [h1', hkk, if_pos hgf]; norm_num) hcapg
      have h2' : (confirmGesture cfg (confirmGesture cfg s g).1 g).1.gesture_history =
          [] ++ Gesture.fist :: [Gesture.fist] := by
        rw [h2, h1', hgf] <;> rfl
      refine ⟨?_, ?_, ?_, fun s2 => confirm_same cfg s2⟩
      · show (confirmGesture cfg (confirmGesture cfg (confirmGesture cfg s g).1 g).1
          d).1.current_confirmed_gesture = s.current_confirmed_gesture
        by_cases hdc : d = (confirmGesture cfg (confirmGesture cfg s g).1 g).1.current_confirmed_gesture
        · rw [hdc, (confirm_same cfg _).2, c2, c1]
        · obtain ⟨-, c3, -⟩ := @confirm_stays cfg _ _ _ _ _ hdc
            (show _ = ([] ++ [Gesture.fist]) ++ Gesture.fist :: [] by rw [h2, h1', hgf] <;> simp)
            (by rw [← hgf]; exact fun e => hd e.symm) hlend hcapd
          rw [c3, c2, c1]
      · show (confirmGesture cfg (confirmGesture cfg (confirmGesture cfg s g).1 g).1
          g).1.current_confirmed_gesture = g
        exact (@confirm_fires cfg _ _ _ _
          (show _ = [] ++ List.replicate 2 g by rw [h2, h1', hgf] <;> simp [List.replicate])
          (by rw [hkk, if_pos hgf]) (by omega)).2
      · show (confirmGesture cfg (confirmGesture cfg (confirmGesture cfg s g).1 g).1 g).2 = true
        exact (@confirm_fires cfg _ _ _ _
          (show _ = [] ++ List.replicate 2 g by rw [h2, h1', hgf] <;> simp [List.replicate])
          (by rw [hkk, if_pos hgf]) (by omega)).1
    · -- history ending in x ≠ g: both g-steps fail with x in the window
      have hvx' : s.gesture_history = v ++ x :: [] := by
        rw [hvx, List.concat_eq_append] <;> rfl
      have hxg : ¬ x = g := hlast x (by
        rw [hvx, List.concat_eq_append]; exact List.getLast?_concat v)
      obtain ⟨-, c1, v1, h1⟩ := @confirm_stays cfg _ _ _ _ _ hne hvx' hxg
        (by rw [hkk, if_pos hgf]; norm_num) hcapg
      have h1' : (confirmGesture cfg s g).1.gesture_history = v1 ++ x :: [g] := by
        rw [h1] <;> rfl
      have hne1 : ¬ g = (confirmGesture cfg s g).1.current_confirmed_gesture := by
        rw [c1]; exact hne
      obtain ⟨-, c2, v2, h2⟩ := @confirm_stays cfg _ _ _ _ _ hne1 h1' hxg
        (by rw [hkk, if_pos hgf]; norm_num) hcapg
      have h2' : (confirmGesture cfg (confirmGesture cfg s g).1 g).1.gesture_history =
          v2 ++ x :: [g, g] := by
        rw [h2] <;> rfl
      refine ⟨?_, ?_, ?_, fun s2 => confirm_same cfg s2⟩
      · show (confirmGesture cfg (confirmGesture cfg (confirmGesture cfg s g).1 g).1
          d).1.current_confirmed_gesture = s.current_confirmed_gesture
        by_cases hdc : d = (confirmGesture cfg (confirmGesture cfg s g).1 g).1.current_confirmed_gesture
        · rw [hdc, (confirm_same cfg _).2, c2, c1]
        · obtain ⟨-, c3, -⟩ := @confirm_stays cfg _ _ _ _ _ hdc
            (show _ = (v2 ++ x :: [g]) ++ g :: [] by rw [h2'] <;> simp)
            (fun e => hd e.symm) hlend hcapd
          rw [c3, c2, c1]
      · show (confirmGesture cfg (confirmGesture cfg (confirmGesture cfg s g).1 g).1
          g).1.current_confirmed_gesture = g
        exact (@confirm_fires cfg _ _ _ _
          (show _ = (v2 ++ [x]) ++ List.replicate 2 g by rw [h2'] <;> simp [List.replicate])
          (by rw [hkk, if_pos hgf]) (by omega)).2
      · show (confirmGesture cfg (confirmGesture cfg (confirmGesture cfg s g).1 g).1 g).2 = true
        exact (@confirm_fires cfg _ _ _ _
          (show _ = (v2 ++ [x]) ++ List.replicate 2 g by rw [h2'] <;> simp [List.replicate])
          (by rw [hkk, if_pos hgf]) (by omega)).1
  · rw [if_neg hgf]
    -- submissions: g then d; and g, g
    rcases List.eq_nil_or_concat s.gesture_history with hnil | ⟨v, x, hvx⟩
    · obtain ⟨-, c1, h1⟩ := @confirm_short cfg s g hne
        (by rw [hnil, hkk, if_neg hgf]; norm_num) hcapg
      have h1' : (confirmGesture cfg s g).1.gesture_history = [] ++ g :: [] := by
        rw [h1, hnil] <;> rfl
      refine ⟨?_, ?_, ?_, fun s2 => confirm_same cfg s2⟩
      · show (confirmGesture cfg (confirmGesture cfg s g).1
          d).1.current_confirmed_gesture = s.current_confirmed_gesture
        by_cases hdc : d = (confirmGesture cfg s g).1.current_confirmed_gesture
        · rw [hdc, (confirm_same cfg _).2, c1]
        · obtain ⟨-, c2, -⟩ := @confirm_stays cfg _ _ _ _ _ hdc h1'
            (fun e => hd e.symm) hlend hcapd
          rw [c2, c1]
      · show (confirmGesture cfg (confirmGesture cfg s g).1
          g).1.current_confirmed_gesture = g
        exact (@confirm_fires cfg _ _ _ _
          (show _ = [] ++ List.replicate 1 g by rw [h1, hnil] <;> simp [List.replicate])
          (by rw [hkk, if_neg hgf]) (by omega)).2
      · show (confirmGesture cfg (confirmGesture cfg s g).1 g).2 = true
        exact (@confirm_fires cfg _ _ _ _
          (show _ = [] ++ List.replicate 1 g by rw [h1, hnil] <;> simp [List.replicate])
          (by rw [hkk, if_neg hgf]) (by omega)).1
    · have hvx' : s.gesture_history = v ++ x :: [] := by
        rw [hvx, List.concat_eq_append] <;> rfl
      have hxg : ¬ x = g := hlast x (by
        rw [hvx, List.concat_eq_append]; exact List.getLast?_concat v)
      obtain ⟨-, c1, v1, h1⟩ := @confirm_stays cfg _ _ _ _ _ hne hvx' hxg
        (by rw [hkk, if_neg hgf]; norm_num) hcapg
      have h1' : (confirmGesture cfg s g).1.gesture_history = v1 ++ x :: [g] := by
        rw [h1] <;> rfl
      refine ⟨?_, ?_, ?_, fun s2 => confirm_same cfg s2⟩
      · show (confirmGesture cfg (confirmGesture cfg s g).1
          d).1.current_confirmed_gesture = s.current_confirmed_gesture
        by_cases hdc : d = (confirmGesture cfg s g).1.current_confirmed_gesture
        · rw [hdc, (confirm_same cfg _).2, c1]
        · obtain ⟨-, c2, -⟩ := @confirm_stays cfg _ _ _ _ _ hdc
            (show _ = (v1 ++ [x]) ++ g :: [] by rw [h1'] <;> simp)
            (fun e => hd e.symm) hlend hcapd
          rw [c2, c1]
      · show (confirmGesture cfg (confirmGesture cfg s g).1
          g).1.current_confirmed_gesture = g
        exact (@confirm_fires cfg _ _ _ _
          (show _ = (v1 ++ [x]) ++ List.replicate 1 g by rw [h1'] <;> simp [List.replicate])
          (by rw [hkk, if_neg hgf]) (by omega)).2
      · show (confirmGesture cfg (confirmGesture cfg s g).1 g).2 = true
        exact (@confirm_fires cfg _ _ _ _
          (show _ = (v1 ++ [x]) ++ List.replicate 1 g by rw [h1'] <;> simp [List.replicate])
          (by rw [hkk, if_neg hgf]) (by omega)).1

/-- Witness for C3: from the fresh initial state, the point label (needing
2 frames) confirms after exactly 2 consecutive submissions. -/
theorem C3_gesture_confirmation_witness :
    (¬ Gesture.point = (initState (srcConfig 1920 1080)).current_confirmed_gesture) ∧
    (confirmRun (srcConfig 1920 1080) (initState (srcConfig 1920 1080))
      (List.replicate (if Gesture.point = Gesture.fist then 3 else 2)
        Gesture.point)).current_confirmed_gesture = Gesture.point := by
  refine ⟨by decide, ?_⟩
  exact (C3_gesture_confirmation 1920 1080 (initState (srcConfig 1920 1080))
    Gesture.point Gesture.idle (by decide)
    (fun x hx => by simp [initState] at hx) (by decide)).2.1

/-- The smoother always records the frame's raw target. -/
theorem smoothMove_prev (cfg : Config) (s : CState) (tx ty : ℚ) :
    ((smoothMove cfg s tx ty).1).prev_target_x = tx ∧
    ((smoothMove cfg s tx ty).1).prev_target_y = ty := by
  simp only [smoothMove]
  split <;> exact ⟨rfl, rfl⟩

/-- With an unchanged raw target the measured velocity is zero, so the
smoothing factor is the base one. -/
theorem smoothAlpha_of_prev {cfg : Config} {s : CState} {tx ty : ℚ}
    (hx : s.prev_target_x = tx) (hy : s.prev_target_y = ty) :
    smoothAlpha cfg s tx ty = cfg.SMOOTH_BASE := by
  unfold smoothAlpha
  rw [hx, hy]
  rw [if_neg (by
    rw [show (tx - tx) ^ 2 + (ty - ty) ^ 2 = (0 : ℚ) from by ring]
    exact not_lt.mpr (sq_nonneg _))]

/-- With the source constants the smoothing factor is 1/4 or 11/20. -/
theorem srcAlpha_bounds (w h : ℚ) (s : CState) (tx ty : ℚ) :
    1/4 ≤ smoothAlpha (srcConfig w h) s tx ty ∧
    smoothAlpha (srcConfig w h) s tx ty ≤ 11/20 := by
  unfold smoothAlpha
  split <;> constructor <;> norm_num [srcConfig]

/-- A suppressed frame leaves the smoothed position untouched. -/
theorem smoothMove_dz {cfg : Config} {s : CState} {tx ty : ℚ}
    (hd : deadzone cfg s tx ty) :
    (smoothMove cfg s tx ty).1 = { s with prev_target_x := tx, prev_target_y := ty } := by
  simp only [smoothMove]
  rw [if_pos hd]

/-- An unsuppressed frame applies the blend on both axes. -/
theorem smoothMove_nodz {cfg : Config} {s : CState} {tx ty : ℚ}
    (hd : ¬ deadzone cfg s tx ty) :
    (smoothMove cfg s tx ty).1 = { s with
      prev_target_x := tx
      prev_target_y := ty
      smooth_x := s.smooth_x + (tx - s.smooth_x) * smoothAlpha cfg s tx ty
      smooth_y := s.smooth_y + (ty - s.smooth_y) * smoothAlpha cfg s tx ty } := by
  simp only [smoothMove]
  rw [if_neg hd]

/-- With the raw target unchanged and both axis errors below 12 pixels,
the blended deltas fall under DEAD_ZONE = 3 (the base factor is 1/4). -/
theorem deadzone_of_small {w h : ℚ} {s : CState} {tx ty : ℚ}
    (hpx : s.prev_target_x = tx) (hpy : s.prev_target_y = ty)
    (hx : |tx - s.smooth_x| < 12) (hy : |ty - s.smooth_y| < 12) :
    deadzone (srcConfig w h) s tx ty := by
  unfold deadzone
  rw [smoothAlpha_of_prev hpx hpy]
  constructor
  · rw [show s.smooth_x + (tx - s.smooth_x) * (srcConfig w h).SMOOTH_BASE - s.smooth_x
        = (tx - s.smooth_x) * (1/4) from by norm_num [srcConfig] <;> ring]
    rw [abs_mul, abs_of_pos (show (0:ℚ) < 1/4 by norm_num)]
    show |tx - s.smooth_x| * (1/4) < (srcConfig w h).DEAD_ZONE
    have : (srcConfig w h).DEAD_ZONE = 3 := rfl
    rw [this]
    linarith
  · rw [show s.smooth_y + (ty - s.smooth_y) * (srcConfig w h).SMOOTH_BASE - s.smooth_y
        = (ty - s.smooth_y) * (1/4) from by norm_num [srcConfig] <;> ring]
    rw [abs_mul, abs_of_pos (show (0:ℚ) < 1/4 by norm_num)]
    show |ty - s.smooth_y| * (1/4) < (srcConfig w h).DEAD_ZONE
    have : (srcConfig w h).DEAD_ZONE = 3 := rfl
    rw [this]
    linarith

/-- Once a frame is suppressed under a constant target, the next frame is
suppressed too and the smoothed position is unchanged. -/
theorem deadzone_propagate {w h : ℚ} {s : CState} {tx ty : ℚ}
    (hd : deadzone (srcConfig w h) s tx ty) :
    deadzone (srcConfig w h) ((smoothMove (srcConfig w h) s tx ty).1) tx ty ∧
    ((smoothMove (srcConfig w h) s tx ty).1).smooth_x = s.smooth_x ∧
    ((smoothMove (srcConfig w h) s tx ty).1).smooth_y = s.smooth_y := by
  have hfix := smoothMove_dz hd
  have hb := srcAlpha_bounds w h s tx ty
  have hx : |tx - s.smooth_x| < 12 := by
    have h1 := hd.1
    rw [show s.smooth_x + (tx - s.smooth_x) * smoothAlpha (srcConfig w h) s tx ty - s.smooth_x
        = (tx - s.smooth_x) * smoothAlpha (srcConfig w h) s tx ty from by ring] at h1
    rw [abs_mul, abs_of_pos (lt_of_lt_of_le (by norm_num) hb.1)] at h1
    have h2 : (srcConfig w h).DEAD_ZONE = 3 := rfl
    rw [h2] at h1
    nlinarith [abs_nonneg (tx - s.smooth_x), hb.1]
  have hy : |ty - s.smooth_y| < 12 := by
    have h1 := hd.2
    rw [show s.smooth_y + (ty - s.smooth_y) * smoothAlpha (srcConfig w h) s tx ty - s.smooth_y
        = (ty - s.smooth_y) * smoothAlpha (srcConfig w h) s tx ty from by ring] at h1
    rw [abs_mul, abs_of_pos (lt_of_lt_of_le (by norm_num) hb.1)] at h1
    have h2 : (srcConfig w h).DEAD_ZONE = 3 := rfl
    rw [h2] at h1
    nlinarith [abs_nonneg (ty - s.smooth_y), hb.1]
  refine ⟨?_, by rw [hfix], by rw [hfix]⟩
  rw [hfix]
  exact deadzone_of_small rfl rfl hx hy

/-- C6: under a constant raw target, from any starting smoother state,
the per-axis distance to the target never increases frame over frame;
from any frame at which both blended axis deltas fall under the dead
zone, the smoothed position never changes again; and such a frame is
always reached — the output is frame-invariant from that point on. -/
theorem C6_deadzone_idempotence (w h : ℚ) (s : CState) (tx ty : ℚ) :
    (∀ n, |tx - (iterSmooth (srcConfig w h) tx ty s (n+1)).smooth_x| ≤
        |tx - (iterSmooth (srcConfig w h) tx ty s n).smooth_x| ∧
      |ty - (iterSmooth (srcConfig w h) tx ty s (n+1)).smooth_y| ≤
        |ty - (iterSmooth (srcConfig w h) tx ty s n).smooth_y|) ∧
    (∀ n m, n ≤ m →
      deadzone (srcConfig w h) (iterSmooth (srcConfig w h) tx ty s n) tx ty →
      (iterSmooth (srcConfig w h) tx ty s m).smooth_x =
        (iterSmooth (srcConfig w h) tx ty s n).smooth_x ∧
      (iterSmooth (srcConfig w h) tx ty s m).smooth_y =
        (iterSmooth (srcConfig w h) tx ty s n).smooth_y) ∧
    (∃ N, deadzone (srcConfig w h) (iterSmooth (srcConfig w h) tx ty s N) tx ty) := by
  set cfg := srcConfig w h with hcfg
  refine ⟨?_, ?_, ?_⟩
  · -- per-axis contraction
    intro n
    by_cases hdz : deadzone cfg (iterSmooth cfg tx ty s n) tx ty
    · rw [show iterSmooth cfg tx ty s (n+1) =
          (smoothMove cfg (iterSmooth cfg tx ty s n) tx ty).1 from rfl,
        smoothMove_dz hdz]
      exact ⟨le_of_eq rfl, le_of_eq rfl⟩
    · rw [show iterSmooth cfg tx ty s (n+1) =
          (smoothMove cfg (iterSmooth cfg tx ty s n) tx ty).1 from rfl,
        smoothMove_nodz hdz]
      have hb := srcAlpha_bounds w h (iterSmooth cfg tx ty s n) tx ty
      constructor
      · show |tx - ((iterSmooth cfg tx ty s n).smooth_x +
          (tx - (iterSmooth cfg tx ty s n).smooth_x) *
            smoothAlpha cfg (iterSmooth cfg tx ty s n) tx ty)| ≤ _
        rw [show tx - ((iterSmooth cfg tx ty s n).smooth_x +
            (tx - (iterSmooth cfg tx ty s n).smooth_x) *
              smoothAlpha cfg (iterSmooth cfg tx ty s n) tx ty)
          = (tx - (iterSmooth cfg tx ty s n).smooth_x) *
              (1 - smoothAlpha cfg (iterSmooth cfg tx ty s n) tx ty) from by ring]
        rw [abs_mul]
        calc |tx - (iterSmooth cfg tx ty s n).smooth_x| *
            |1 - smoothAlpha cfg (iterSmooth cfg tx ty s n) tx ty|
            ≤ |tx - (iterSmooth cfg tx ty s n).smooth_x| * 1 := by
              apply mul_le_mul_of_nonneg_left _ (abs_nonneg _)
              rw [abs_le]
              constructor <;> linarith [hb.1, hb.2]
          _ = _ := mul_one _
      · show |ty - ((iterSmooth cfg tx ty s n).smooth_y +
          (ty - (iterSmooth cfg tx ty s n).smooth_y) *
            smoothAlpha cfg (iterSmooth cfg tx ty s n) tx ty)| ≤ _
        rw [show ty - ((iterSmooth cfg tx ty s n).smooth_y +
            (ty - (iterSmooth cfg tx ty s n).smooth_y) *
              smoothAlpha cfg (iterSmooth cfg tx ty s n) tx ty)
          = (ty - (iterSmooth cfg tx ty s n).smooth_y) *
              (1 - smoothAlpha cfg (iterSmooth cfg tx ty s n) tx ty) from by ring]
        rw [abs_mul]
        calc |ty - (iterSmooth cfg tx ty s n).smooth_y| *
            |1 - smoothAlpha cfg (iterSmooth cfg tx ty s n) tx ty|
            ≤ |ty - (iterSmooth cfg tx ty s n).smooth_y| * 1 := by
              apply mul_le_mul_of_nonneg_left _ (abs_nonneg _)
              rw [abs_le]
              constructor <;> linarith [hb.1, hb.2]
          _ = _ := mul_one _
  · -- persistence of suppression
    intro n m hnm hdz
    have key : ∀ j, n ≤ j → deadzone cfg (iterSmooth cfg tx ty s j) tx ty ∧
        (iterSmooth cfg tx ty s j).smooth_x = (iterSmooth cfg tx ty s n).smooth_x ∧
        (iterSmooth cfg tx ty s j).smooth_y = (iterSmooth cfg tx ty s n).smooth_y := by
      intro j hj
      induction j, hj using Nat.le_induction with
      | base => exact ⟨hdz, rfl, rfl⟩
      | succ j hj ih =>
        obtain ⟨ihd, ihx, ihy⟩ := ih
        obtain ⟨pd, px, py⟩ := deadzone_propagate (w := w) (h := h) ihd
        exact ⟨pd, px.trans ihx, py.trans ihy⟩
    exact ⟨(key m hnm).2.1, (key m hnm).2.2⟩
  · -- suppression is always reached
    by_contra hall
    push_neg at hall
    have hprev : ∀ n, (iterSmooth cfg tx ty s (n+1)).prev_target_x = tx ∧
        (iterSmooth cfg tx ty s (n+1)).prev_target_y = ty :=
      fun n => smoothMove_prev cfg (iterSmooth cfg tx ty s n) tx ty
    have halpha : ∀ n, smoothAlpha cfg (iterSmooth cfg tx ty s (n+1)) tx ty = 1/4 := by
      intro n
      rw [smoothAlpha_of_prev (hprev n).1 (hprev n).2]
      rfl
    have hstep : ∀ n,
        tx - (iterSmooth cfg tx ty s (n+2)).smooth_x =
          (3/4) * (tx - (iterSmooth cfg tx ty s (n+1)).smooth_x) ∧
        ty - (iterSmooth cfg tx ty s (n+2)).smooth_y =
          (3/4) * (ty - (iterSmooth cfg tx ty s (n+1)).smooth_y) := by
      intro n
      rw [show iterSmooth cfg tx ty s (n+2) =
          (smoothMove cfg (iterSmooth cfg tx ty s (n+1)) tx ty).1 from rfl,
        smoothMove_nodz (hall (n+1))]
      constructor
      · show tx - ((iterSmooth cfg tx ty s (n+1)).smooth_x +
          (tx - (iterSmooth cfg tx ty s (n+1)).smooth_x) *
            smoothAlpha cfg (iterSmooth cfg tx ty s (n+1)) tx ty) = _
        rw [halpha n]
        ring
      · show ty - ((iterSmooth cfg tx ty s (n+1)).smooth_y +
          (ty - (iterSmooth cfg tx ty s (n+1)).smooth_y) *
            smoothAlpha cfg (iterSmooth cfg tx ty s (n+1)) tx ty) = _
        rw [halpha n]
        ring
    have hgeo : ∀ k,
        tx - (iterSmooth cfg tx ty s (k+1)).smooth_x =
          (3/4)^k * (tx - (iterSmooth cfg tx ty s 1).smooth_x) ∧
        ty - (iterSmooth cfg tx ty s (k+1)).smooth_y =
          (3/4)^k * (ty - (iterSmooth cfg tx ty s 1).smooth_y) := by
      intro k
      induction k with
      | zero => simp
      | succ k ih =>
        obtain ⟨sx, sy⟩ := hstep k
        refine ⟨?_, ?_⟩
        · rw [sx, ih.1]
          ring
        · rw [sy, ih.2]
          ring
    have hEpos : (0:ℚ) < |tx - (iterSmooth cfg tx ty s 1).smooth_x| +
        |ty - (iterSmooth cfg tx ty s 1).smooth_y| + 1 := by positivity
    obtain ⟨k, hk⟩ := exists_pow_lt_of_lt_one
      (show (0:ℚ) < 12 / (|tx - (iterSmooth cfg tx ty s 1).smooth_x| +
        |ty - (iterSmooth cfg tx ty s 1).smooth_y| + 1) by positivity)
      (show (3:ℚ)/4 < 1 by norm_num)
    have hkE : (3/4:ℚ)^k * (|tx - (iterSmooth cfg tx ty s 1).smooth_x| +
        |ty - (iterSmooth cfg tx ty s 1).smooth_y| + 1) < 12 :=
      (lt_div_iff hEpos).mp hk
    have hpk : (0:ℚ) ≤ (3/4:ℚ)^k := by positivity
    have hkx : |tx - (iterSmooth cfg tx ty s (k+1)).smooth_x| < 12 := by
      rw [(hgeo k).1, abs_mul, abs_of_nonneg hpk]
      have h1 : |tx - (iterSmooth cfg tx ty s 1).smooth_x| ≤
          |tx - (iterSmooth cfg tx ty s 1).smooth_x| +
          |ty - (iterSmooth cfg tx ty s 1).smooth_y| + 1 := by
        have := abs_nonneg (ty - (iterSmooth cfg tx ty s 1).smooth_y)
        linarith
      nlinarith
    have hky : |ty - (iterSmooth cfg tx ty s (k+1)).smooth_y| < 12 := by
      rw [(hgeo k).2, abs_mul, abs_of_nonneg hpk]
      have h1 : |ty - (iterSmooth cfg tx ty s 1).smooth_y| ≤
          |tx - (iterSmooth cfg tx ty s 1).smooth_x| +
          |ty - (iterSmooth cfg tx ty s 1).smooth_y| + 1 := by
        have := abs_nonneg (tx - (iterSmooth cfg tx ty s 1).smooth_x)
        linarith
      nlinarith
    exact hall (k+1) (deadzone_of_small (hprev k).1 (hprev k).2 hkx hky)

/-- Witness for C6: with the cursor already centred on the target, the
first frame is suppressed and the position never changes. -/
theorem C6_deadzone_idempotence_witness :
    deadzone (srcConfig 1920 1080)
      (iterSmooth (srcConfig 1920 1080) 960 540 (initState (srcConfig 1920 1080)) 0)
      960 540 ∧
    (iterSmooth (srcConfig 1920 1080) 960 540 (initState (srcConfig 1920 1080)) 3).smooth_x =
      (iterSmooth (srcConfig 1920 1080) 960 540 (initState (srcConfig 1920 1080)) 0).smooth_x := by
  have hdz : deadzone (srcConfig 1920 1080)
      (iterSmooth (srcConfig 1920 1080) 960 540 (initState (srcConfig 1920 1080)) 0)
      960 540 := by
    apply deadzone_of_small
    · show (initState (srcConfig 1920 1080)).prev_target_x = 960
      norm_num [initState, srcConfig]
    · show (initState (srcConfig 1920 1080)).prev_target_y = 540
      norm_num [initState, srcConfig]
    · show |(960:ℚ) - (initState (srcConfig 1920 1080)).smooth_x| < 12
      norm_num [initState, srcConfig]
    · show |(540:ℚ) - (initState (srcConfig 1920 1080)).smooth_y| < 12
      norm_num [initState, srcConfig]
  exact ⟨hdz, ((C6_deadzone_idempotence 1920 1080 (initState (srcConfig 1920 1080))
    960 540).2.1 0 3 (by omega) hdz).1⟩

/-- The mapper's clamp keeps both coordinates inside the screen
rectangle, for arbitrary (even out-of-range) normalized inputs. -/
theorem mapToScreen_bounds (w h : ℚ) (hw : 1 ≤ w) (hh : 1 ≤ h) (x y : ℚ) :
    0 ≤ (mapToScreen (srcConfig w h) x y).1 ∧
    (mapToScreen (srcConfig w h) x y).1 ≤ w - 1 ∧
    0 ≤ (mapToScreen (srcConfig w h) x y).2 ∧
    (mapToScreen (srcConfig w h) x y).2 ≤ h - 1 := by
  simp only [mapToScreen]
  refine ⟨le_max_left 0 _, max_le (by linarith) ?_, le_max_left 0 _, max_le (by linarith) ?_⟩
  · exact le_trans (min_le_left _ _) (le_of_eq rfl)
  · exact le_trans (min_le_left _ _) (le_of_eq rfl)

/-- A convex blend of two values of an interval stays in the interval. -/
theorem blend_bounds {lo hi a t u : ℚ} (ha1 : lo ≤ a) (ha2 : a ≤ hi)
    (ht1 : lo ≤ t) (ht2 : t ≤ hi) (hu1 : 0 ≤ u) (hu2 : u ≤ 1) :
    lo ≤ a + (t - a) * u ∧ a + (t - a) * u ≤ hi := by
  constructor
  · nlinarith [mul_nonneg (sub_nonneg.mpr ha1) (sub_nonneg.mpr hu2),
      mul_nonneg (sub_nonneg.mpr ht1) hu1]
  · nlinarith [mul_nonneg (sub_nonneg.mpr ha2) (sub_nonneg.mpr hu2),
      mul_nonneg (sub_nonneg.mpr ht2) hu1]

/-- Processing one frame keeps the smoothed position inside the screen
rectangle: the mapped target is clamped and the blend is convex. -/
theorem process_inBounds (w h : ℚ) (hw : 1 ≤ w) (hh : 1 ≤ h) (s : CState) (f : Frame)
    (hx1 : 0 ≤ s.smooth_x) (hx2 : s.smooth_x ≤ w - 1)
    (hy1 : 0 ≤ s.smooth_y) (hy2 : s.smooth_y ≤ h - 1) :
    0 ≤ (process (srcConfig w h) s f).1.smooth_x ∧
    (process (srcConfig w h) s f).1.smooth_x ≤ w - 1 ∧
    0 ≤ (process (srcConfig w h) s f).1.smooth_y ∧
    (process (srcConfig w h) s f).1.smooth_y ≤ h - 1 := by
  obtain ⟨hpx, hpy⟩ := process_smooth_eq (srcConfig w h) s f
  rw [hpx, hpy]
  obtain ⟨hm1, hm2, hm3, hm4⟩ := mapToScreen_bounds w h hw hh f.indexX f.indexY
  obtain ⟨hb1, hb2⟩ := srcAlpha_bounds w h s
    (mapToScreen (srcConfig w h) f.indexX f.indexY).1
    (mapToScreen (srcConfig w h) f.indexX f.indexY).2
  rcases smoothMove_smooth_cases (srcConfig w h) s
      (mapToScreen (srcConfig w h) f.indexX f.indexY).1
      (mapToScreen (srcConfig w h) f.indexX f.indexY).2 with ⟨e1, e2⟩ | ⟨e1, e2⟩
  · rw [e1, e2]
    exact ⟨hx1, hx2, hy1, hy2⟩
  · rw [e1, e2]
    obtain ⟨bx1, bx2⟩ := blend_bounds hx1 hx2 hm1 hm2 (by linarith) (by linarith)
    obtain ⟨by1, by2⟩ := blend_bounds hy1 hy2 hm3 hm4 (by linarith) (by linarith)
    exact ⟨bx1, bx2, by1, by2⟩

/-- One trace event (frame or hand-lost) keeps the smoothed position
inside the screen rectangle. -/
theorem stepEv_inBounds (w h : ℚ) (hw : 1 ≤ w) (hh : 1 ≤ h) (s : CState) (e : Event)
    (hx1 : 0 ≤ s.smooth_x) (hx2 : s.smooth_x ≤ w - 1)
    (hy1 : 0 ≤ s.smooth_y) (hy2 : s.smooth_y ≤ h - 1) :
    0 ≤ (stepEv (srcConfig w h) s e).1.smooth_x ∧
    (stepEv (srcConfig w h) s e).1.smooth_x ≤ w - 1 ∧
    0 ≤ (stepEv (srcConfig w h) s e).1.smooth_y ∧
    (stepEv (srcConfig w h) s e).1.smooth_y ≤ h - 1 := by
  cases e with
  | frame f => exact process_inBounds w h hw hh s f hx1 hx2 hy1 hy2
  | lost =>
    obtain ⟨-, -, -, -, -, -, -, hsx, hsy⟩ := onHandLost_spec s
    show 0 ≤ (onHandLost s).1.smooth_x ∧ (onHandLost s).1.smooth_x ≤ w - 1 ∧
      0 ≤ (onHandLost s).1.smooth_y ∧ (onHandLost s).1.smooth_y ≤ h - 1
    rw [hsx, hsy]
    exact ⟨hx1, hx2, hy1, hy2⟩

/-- For a nonnegative blended coordinate the Python int() truncation is
the floor, which stays nonnegative and below every rational bound. -/
theorem pyInt_bounds {q hi : ℚ} (h1 : 0 ≤ q) (h2 : q ≤ hi) :
    0 ≤ pyInt q ∧ (pyInt q : ℚ) ≤ hi := by
  unfold pyInt
  rw [if_pos h1]
  exact ⟨Int.le_floor.mpr (by exact_mod_cast h1), le_trans (Int.floor_le q) h2⟩

/-- Every pointer move emitted by one trace event carries on-screen
integer coordinates, provided the pre-state is in bounds. -/
theorem stepEv_moveTo_bounds (w h : ℚ) (hw : 1 ≤ w) (hh : 1 ≤ h) (s : CState) (e : Event)
    (hx1 : 0 ≤ s.smooth_x) (hx2 : s.smooth_x ≤ w - 1)
    (hy1 : 0 ≤ s.smooth_y) (hy2 : s.smooth_y ≤ h - 1)
    (x y : ℤ) (hmem : Action.moveTo x y ∈ (stepEv (srcConfig w h) s e).2) :
    0 ≤ x ∧ (x : ℚ) ≤ w - 1 ∧ 0 ≤ y ∧ (y : ℚ) ≤ h - 1 := by
  cases e with
  | frame f =>
    obtain ⟨hex, hey⟩ := process_moveTo_mem (srcConfig w h) s f x y hmem
    obtain ⟨p1, p2, p3, p4⟩ := process_inBounds w h hw hh s f hx1 hx2 hy1 hy2
    obtain ⟨q1, q2⟩ := pyInt_bounds p1 p2
    obtain ⟨q3, q4⟩ := pyInt_bounds p3 p4
    rw [hex, hey]
    exact ⟨q1, q2, q3, q4⟩
  | lost =>
    obtain ⟨-, -, -, -, -, -, hlog, -, -⟩ := onHandLost_spec s
    exfalso
    have hmem2 : Action.moveTo x y ∈ (onHandLost s).2 := hmem
    rw [hlog] at hmem2
    by_cases hd : s.is_dragging = true
    · rw [if_pos hd] at hmem2
      simp at hmem2
    · rw [if_neg hd] at hmem2
      simp at hmem2

/-- The bounds invariant and the on-screen property of every emitted
pointer move, propagated along an arbitrary event trace. -/
theorem runEv_bounds (w h : ℚ) (hw : 1 ≤ w) (hh : 1 ≤ h) (es : List Event) :
    ∀ s : CState, 0 ≤ s.smooth_x → s.smooth_x ≤ w - 1 →
      0 ≤ s.smooth_y → s.smooth_y ≤ h - 1 →
      (0 ≤ (runEv (srcConfig w h) s es).1.smooth_x ∧
       (runEv (srcConfig w h) s es).1.smooth_x ≤ w - 1 ∧
       0 ≤ (runEv (srcConfig w h) s es).1.smooth_y ∧
       (runEv (srcConfig w h) s es).1.smooth_y ≤ h - 1) ∧
      (∀ x y : ℤ, Action.moveTo x y ∈ (runEv (srcConfig w h) s es).2 →
        0 ≤ x ∧ (x : ℚ) ≤ w - 1 ∧ 0 ≤ y ∧ (y : ℚ) ≤ h - 1) := by
  induction es with
  | nil =>
    intro s h1 h2 h3 h4
    refine ⟨⟨h1, h2, h3, h4⟩, ?_⟩
    intro x y hxy
    simp [runEv] at hxy
  | cons e es ih =>
    intro s h1 h2 h3 h4
    obtain ⟨g1, g2, g3, g4⟩ := stepEv_inBounds w h hw hh s e h1 h2 h3 h4
    have ihr := ih (stepEv (srcConfig w h) s e).1 g1 g2 g3 g4
    refine ⟨ihr.1, ?_⟩
    intro x y hxy
    have hsplit : (runEv (srcConfig w h) s (e :: es)).2 =
        (stepEv (srcConfig w h) s e).2 ++
        (runEv (srcConfig w h) (stepEv (srcConfig w h) s e).1 es).2 := rfl
    rw [hsplit] at hxy
    rcases List.mem_append.mp hxy with hmem | hmem
    · exact stepEv_moveTo_bounds w h hw hh s e h1 h2 h3 h4 x y hmem
    · exact ihr.2 x y hmem

/-- C10: from the initial state (cursor at screen center) and along
every event trace with arbitrary normalized landmark coordinates, the
smoothed cursor position stays inside the closed screen rectangle
[0, W-1] x [0, H-1], and every emitted pointer-move action carries
on-screen integer coordinates. -/
theorem C10_cursor_bounds (w h : ℚ) (hw : 2 ≤ w) (hh : 2 ≤ h) (es : List Event) :
    (0 ≤ (runEv (srcConfig w h) (initState (srcConfig w h)) es).1.smooth_x ∧
     (runEv (srcConfig w h) (initState (srcConfig w h)) es).1.smooth_x ≤ w - 1 ∧
     0 ≤ (runEv (srcConfig w h) (initState (srcConfig w h)) es).1.smooth_y ∧
     (runEv (srcConfig w h) (initState (srcConfig w h)) es).1.smooth_y ≤ h - 1) ∧
    (∀ x y : ℤ,
      Action.moveTo x y ∈ (runEv (srcConfig w h) (initState (srcConfig w h)) es).2 →
      0 ≤ x ∧ (x : ℚ) ≤ w - 1 ∧ 0 ≤ y ∧ (y : ℚ) ≤ h - 1) := by
  apply runEv_bounds w h (by linarith) (by linarith) es (initState (srcConfig w h))
  · show (0:ℚ) ≤ w / 2
    linarith
  · show w / 2 ≤ w - 1
    linarith
  · show (0:ℚ) ≤ h / 2
    linarith
  · show h / 2 ≤ h - 1
    linarith

/-- Witness for C10 at a 1920 x 1080 screen over a one-event trace. -/
theorem C10_cursor_bounds_witness :
    (0 ≤ (runEv (srcConfig 1920 1080) (initState (srcConfig 1920 1080))
        [Event.lost]).1.smooth_x ∧
     (runEv (srcConfig 1920 1080) (initState (srcConfig 1920 1080))
        [Event.lost]).1.smooth_x ≤ 1920 - 1 ∧
     0 ≤ (runEv (srcConfig 1920 1080) (initState (srcConfig 1920 1080))
        [Event.lost]).1.smooth_y ∧
     (runEv (srcConfig 1920 1080) (initState (srcConfig 1920 1080))
        [Event.lost]).1.smooth_y ≤ 1080 - 1) ∧
    (∀ x y : ℤ,
      Action.moveTo x y ∈ (runEv (srcConfig 1920 1080) (initState (srcConfig 1920 1080))
        [Event.lost]).2 →
      0 ≤ x ∧ (x : ℚ) ≤ 1920 - 1 ∧ 0 ≤ y ∧ (y : ℚ) ≤ 1080 - 1) :=
  C10_cursor_bounds 1920 1080 (by norm_num) (by norm_num) [Event.lost]

end GestureControl
